import Mathlib

/-!
Verification development for the PaperDOI_Zotero pipeline (src/DOI_Zotero.py).

The Python program scans PDFs for DOI candidates, verifies them against the
Crossref catalog, and emits BibTeX/RIS/CSV outputs.  This file gives a shallow
embedding of the pure decision core of that program:

* `find_doi_candidates_in_pdf_text` — the regex-based DOI candidate extractor
  (the two regexes of the source are modelled as explicit backtracking
  scanners over `List Char`, faithful to CPython `re.findall` semantics
  restricted to ASCII text: leftmost non-overlapping matches, greedy
  quantifiers with backtracking, `\b` word boundaries);
* `extract_title_candidate_from_text` — the title-line heuristic;
* `title_similarity` — difflib's `SequenceMatcher.ratio()` (Ratcliff/Obershelp
  with the autojunk popularity heuristic), computed in `ℚ` instead of IEEE
  floats, so ratios are exact rationals;
* `is_thesis` — the thesis/dissertation classifier;
* `to_bibtex_entry` / `to_ris_entry` — the entry builders, modelled in
  `Except String` so that Python `IndexError`s become `.error`;
* `scan_candidates` / `processDoc` — the per-document body of `main`
  (candidate loop, title-search fallback, finalization and report rows),
  parameterized by resolver oracles in place of the HTTP collaborators.

Crossref messages are modelled by the structure `Msg`, whose `Option` fields
distinguish an absent JSON key (`none`) from a present value, which is what
the Python `dict.get` defaulting and `IndexError` behavior depend on.
-/

namespace PaperDOI

/-- The apostrophe character (spelled via its code point). -/
def apos : Char := Char.ofNat 39

/-- Python regex `\w` (word character), restricted to ASCII input. -/
def isWordChar (c : Char) : Bool := c.isAlphanum || c = '_'

/-- Python regex `\s` (whitespace class), restricted to ASCII input:
space, tab, newline, carriage return, vertical tab, form feed. -/
def isSpaceChar (c : Char) : Bool :=
  c = ' ' || c = '\t' || c = '\n' || c = '\r' || c = Char.ofNat 11 || c = Char.ofNat 12

/-- The character class of a DOI suffix in both source regexes:
any character except whitespace, double quote, single quote, `<`, `>`. -/
def isDoiSuffixChar (c : Char) : Bool :=
  !(isSpaceChar c || c = '"' || c = apos || c = '<' || c = '>')

/-- Python `str.lower()` on a character (ASCII). -/
def pyLowerChar (c : Char) : Char := c.toLower

/-- Python `str.lower()` (ASCII). -/
def pyLower (s : String) : String := ⟨s.data.map pyLowerChar⟩

/-- Python `str.strip()` on a character list: remove leading and trailing
whitespace. -/
def pyStrip (l : List Char) : List Char :=
  ((l.dropWhile isSpaceChar).reverse.dropWhile isSpaceChar).reverse

/-- Python `str.rstrip('.,;')` on a character list: remove every trailing
period, comma or semicolon. -/
def pyRstripPunct (l : List Char) : List Char :=
  (l.reverse.dropWhile (fun c => c = '.' || c = ',' || c = ';')).reverse

/-- Whether the last character of `s` belongs to `cs` (false for `""`). -/
def endsIn (s : String) (cs : List Char) : Bool :=
  match s.data.getLast? with
  | some c => cs.any (fun x => c = x)
  | none => false

/-- Python `str.replace(chr(10), ' ')`: replace every newline by a space. -/
def replaceNewlines (s : String) : String :=
  ⟨s.data.map (fun c => if c = '\n' then ' ' else c)⟩

/-- Whether a list starts with the given pattern. -/
def startsWithList : List Char → List Char → Bool
  | [], _ => true
  | _ :: _, [] => false
  | a :: as, b :: bs => a = b && startsWithList as bs

/-- Whether `needle` occurs contiguously inside the second list. -/
def containsList (needle : List Char) : List Char → Bool
  | [] => needle.isEmpty
  | c :: rest => startsWithList needle (c :: rest) || containsList needle rest

/-- Substring containment, Python's `needle in haystack` on strings. -/
def strContains (haystack needle : String) : Bool :=
  containsList needle.data haystack.data

/-!
The DOI regexes of the source:

`DOI_REGEX = \b(10\.\d{4,9}/[^\s"'<>]+)\b` (IGNORECASE), and the labeled form
`(?:doi[:\s]|DOI[:\s]|https?://doi\.org/)\s*(10\.\d{4,9}/[^\s"'<>]+)`
(IGNORECASE).  Because digits cannot be `/`, the `\d{4,9}/` piece matches
exactly when the maximal digit run after `10.` has length 4..9 and is
followed by `/`.  For `DOI_REGEX`, the greedy suffix run backtracks until the
trailing `\b` holds; every character outside the suffix class is a non-word
character, so the boundary after the full run holds iff the run ends in a
word character.
-/

/-- Leading `\b` before the (word) character `1`: satisfied at the start of
the text or after a non-word character. -/
def nonWordBefore : Option Char → Bool
  | none => true
  | some p => !(isWordChar p)

/-- The `\d{4,9}/` piece after a matched `10.`: succeeds iff the maximal
digit run has length 4..9 and is immediately followed by `/`; returns the
digit run and the text after the slash. -/
def doiNumSlash (rest : List Char) : Option (List Char × List Char) :=
  let digits := rest.takeWhile Char.isDigit
  if 4 ≤ digits.length ∧ digits.length ≤ 9 then
    match rest.drop digits.length with
    | '/' :: rest2 => some (digits, rest2)
    | _ => none
  else none

/-- Find the largest cut `j` (`1 ≤ j ≤` run length) of the DOI suffix run such
that a word boundary holds after its first `j` characters.  Walks the
reversed run: `prevOpt` is the character just after the currently considered
cut (`none` at the very end, where the character following the run is never a
word character), `j` the cut size currently tried. -/
def cutFromRev : List Char → Option Char → Nat → Option Nat
  | [], _, _ => none
  | c :: rest, prevOpt, j =>
    let ok := match prevOpt with
      | none => isWordChar c
      | some p => isWordChar c != isWordChar p
    if ok then some j else cutFromRev rest (some c) (j - 1)

/-- Attempt to match `DOI_REGEX` starting at the head of `l`; `prev` is the
character just before `l` (for the leading `\b`).  Returns the captured group
and the remaining text after the match. -/
def tryDoiMatch (prev : Option Char) (l : List Char) : Option (List Char × List Char) :=
  if nonWordBefore prev then
    match l with
    | '1' :: '0' :: '.' :: rest =>
      match doiNumSlash rest with
      | some (digits, rest2) =>
        let sfx := rest2.takeWhile isDoiSuffixChar
        match cutFromRev sfx.reverse none sfx.length with
        | some j =>
          some ('1' :: '0' :: '.' :: (digits ++ '/' :: sfx.take j), rest2.drop j)
        | none => none
      | none => none
    | _ => none
  else none

/-- Fuel-indexed scan loop of `re.findall` with `DOI_REGEX`.  Every step
consumes at least one character of `l` (a successful match is nonempty, and
on failure the scan advances one position), so any fuel above `l.length`
gives the same result; see `doiFindAllAux_congr`. -/
def doiFindAllAux : Nat → Option Char → List Char → List (List Char)
  | 0, _, _ => []
  | fuel + 1, prev, l =>
    match tryDoiMatch prev l with
    | some (g, rest) => g :: doiFindAllAux fuel (some (g.getLastD ' ')) rest
    | none =>
      match l with
      | [] => []
      | c :: rest => doiFindAllAux fuel (some c) rest

/-- `re.findall` with `DOI_REGEX`: scan left to right, emit non-overlapping
matches, resuming after each match end (`prev` tracks the character before
the current position for the leading word boundary). -/
def doiFindAll (prev : Option Char) (l : List Char) : List (List Char) :=
  doiFindAllAux (l.length + 1) prev l

/-- Case-insensitive literal match: `pat` (given lowercase) against the head
of `l`; returns the rest on success. -/
def matchCI : List Char → List Char → Option (List Char)
  | [], l => some l
  | _ :: _, [] => none
  | p :: ps, c :: cs => if c.toLower = p then matchCI ps cs else none

/-- The `doi[:\s]` / `DOI[:\s]` alternatives of the label regex (identical
under IGNORECASE): the letters `doi` in any case followed by a colon or a
whitespace character. -/
def tryLabelTag (l : List Char) : Option (List Char) :=
  match matchCI ['d', 'o', 'i'] l with
  | some (c :: rest) => if c = ':' || isSpaceChar c then some rest else none
  | _ => none

/-- Tail of the resolver-URL alternative after the optional `s`. -/
def urlTail : List Char := [':', '/', '/', 'd', 'o', 'i', '.', 'o', 'r', 'g', '/']

/-- The `https?://doi\.org/` alternative (IGNORECASE): `http`, optionally `s`
(greedy, with backtracking), then `://doi.org/`. -/
def tryUrl (l : List Char) : Option (List Char) :=
  match matchCI ['h', 't', 't', 'p'] l with
  | none => none
  | some rest =>
    match rest with
    | c :: rest2 =>
      if c.toLower = 's' then
        match matchCI urlTail rest2 with
        | some r => some r
        | none => matchCI urlTail rest
      else matchCI urlTail rest
    | [] => none

/-- The prefix alternation of the label regex, in the source's order. -/
def tryLabelStart (l : List Char) : Option (List Char) :=
  match tryLabelTag l with
  | some r => some r
  | none => tryUrl l

/-- The captured DOI group of the label regex: `10\.\d{4,9}/[^\s"'<>]+`,
greedy and with no trailing boundary, so it takes the whole suffix run. -/
def tryDoiCore (l : List Char) : Option (List Char × List Char) :=
  match l with
  | '1' :: '0' :: '.' :: rest =>
    match doiNumSlash rest with
    | some (digits, rest2) =>
      let sfx := rest2.takeWhile isDoiSuffixChar
      if sfx.length = 0 then none
      else some ('1' :: '0' :: '.' :: (digits ++ '/' :: sfx), rest2.drop sfx.length)
    | none => none
  | _ => none

/-- Attempt to match the full label regex at the head of `l`: prefix
alternation, then `\s*` (greedy; no backtracking is needed because the next
required character `1` is not whitespace), then the captured DOI group. -/
def tryLabelMatch (l : List Char) : Option (List Char × List Char) :=
  match tryLabelStart l with
  | none => none
  | some rest => tryDoiCore (rest.dropWhile isSpaceChar)

/-- Fuel-indexed scan loop of `re.findall` with the label regex; as with
`doiFindAllAux`, every step consumes at least one character, so any fuel
above `l.length` gives the same result (`labelFindAllAux_congr`). -/
def labelFindAllAux : Nat → List Char → List (List Char)
  | 0, _ => []
  | fuel + 1, l =>
    match tryLabelMatch l with
    | some (g, rest) => g :: labelFindAllAux fuel rest
    | none =>
      match l with
      | [] => []
      | _ :: rest => labelFindAllAux fuel rest

/-- `re.findall` with the label regex (group 1 captured), non-overlapping,
resuming after each full match. -/
def labelFindAll (l : List Char) : List (List Char) :=
  labelFindAllAux (l.length + 1) l

/-- The inner helper `extract_from_text(txt, tag)` of
`find_doi_candidates_in_pdf_text`: labeled matches first, then any
DOI-shaped matches, each stripped and right-stripped of `.,;`, with the tag
suffixed by `_label` or `_any`.  An empty text yields nothing. -/
def extract_from_text (txt : String) (tag : String) : List (String × String) :=
  if txt = "" then []
  else
    (labelFindAll txt.data).map
      (fun m => (String.mk (pyRstripPunct (pyStrip m)), tag ++ "_label"))
    ++ (doiFindAll none txt.data).map
      (fun m => (String.mk (pyRstripPunct (pyStrip m)), tag ++ "_any"))

/-- The candidate list before deduplication: first-pages text (when
non-empty, Python truthiness) tagged `firstpages`, then the full text tagged
`anywhere`. -/
def rawCandidates (full_text first_pages_text : String) : List (String × String) :=
  (if first_pages_text ≠ "" then extract_from_text first_pages_text "firstpages" else [])
  ++ extract_from_text full_text "anywhere"

/-- The dedup loop of the source: `seen` is the set of lowercased DOI values
already kept; the first occurrence of each key is retained. -/
def dedupCandidates (seen : List String) : List (String × String) → List (String × String)
  | [] => []
  | (doi, tag) :: rest =>
    if pyLower doi ∈ seen then dedupCandidates seen rest
    else (doi, tag) :: dedupCandidates (pyLower doi :: seen) rest

/-- `find_doi_candidates_in_pdf_text(full_text, first_pages_text)`:
candidates from both texts, deduplicated case-insensitively preserving
first-seen order. -/
def find_doi_candidates_in_pdf_text (full_text first_pages_text : String) :
    List (String × String) :=
  dedupCandidates [] (rawCandidates full_text first_pages_text)

/-- Trust rank of a provenance tag, highest trust first (the order in which
the extractor generates candidates). -/
def tagRank (t : String) : Nat :=
  if t = "firstpages_label" then 0
  else if t = "firstpages_any" then 1
  else if t = "anywhere_label" then 2
  else if t = "anywhere_any" then 3
  else 4

/-- Python `str.splitlines()` restricted to ASCII line breaks: split at
newline, carriage return (consuming a following newline), vertical tab and
form feed; a trailing segment without a final break still forms a line, and
the empty string yields no lines.  `acc` holds the current line reversed. -/
def pySplitlinesAux (acc : List Char) : List Char → List (List Char)
  | [] => if acc.isEmpty then [] else [acc.reverse]
  | '\r' :: '\n' :: rest => acc.reverse :: pySplitlinesAux [] rest
  | c :: rest =>
    if c = '\n' || c = '\r' || c = Char.ofNat 11 || c = Char.ofNat 12 then
      acc.reverse :: pySplitlinesAux [] rest
    else pySplitlinesAux (c :: acc) rest

/-- Python `str.splitlines()` (ASCII). -/
def pySplitlines (l : List Char) : List (List Char) := pySplitlinesAux [] l

/-- The `skip_words` tuple of `extract_title_candidate_from_text`, verbatim
from the source including the capitalized entries. -/
def titleSkipWords : List (List Char) :=
  ["abstract".data, "keywords".data, "introduction".data, "acknowledg".data,
   "copyright".data, "Theses".data, "Dissertations".data]

/-- The `skip_institution_terms` tuple of the source. -/
def titleInstTerms : List (List Char) :=
  ["university".data, "college".data, "department".data, "institute".data,
   "school".data, "brigham".data, "brigham young".data, "byu".data]

/-- The body of the `for ln in lines[:30]` loop: the first line that does not
start with a skip word (tested against the lowercased line), does not contain
an institution term, and is longer than 20 characters. -/
def findTitleLine (ls : List (List Char)) : Option (List Char) :=
  ls.find? (fun ln =>
    let low := ln.map pyLowerChar
    !(titleSkipWords.any (fun w => startsWithList w low)) &&
    !(titleInstTerms.any (fun w => containsList w low)) &&
    decide (20 < ln.length))

/-- `extract_title_candidate_from_text(full_text)`: scan the first 30
non-empty stripped lines for a plausible title line; fall back to the first
non-empty line, or `""` when there is none (or the text is empty). -/
def extract_title_candidate_from_text (full_text : String) : String :=
  if full_text = "" then ""
  else
    let lines := ((pySplitlines full_text.data).map pyStrip).filter
      (fun ln => !ln.isEmpty)
    match findTitleLine (lines.take 30) with
    | some ln => String.mk ln
    | none =>
      match lines with
      | ln :: _ => String.mk ln
      | [] => ""

/-!
Model of difflib's `SequenceMatcher` with `isjunk=None` and `autojunk=True`,
as used by `title_similarity`.  Ratios are computed in `ℚ`; the Python float
division `2.0*matches/length` is the IEEE rounding of this exact rational.
With `isjunk=None` the junk set `bjunk` is empty, so the junk-only extension
loops of `find_longest_match` never fire and are omitted.
-/

/-- Positions (increasing) of character `c` in `b` — the `b2j` chains. -/
def positionsOf (b : List Char) (c : Char) : List Nat :=
  (List.range b.length).filter (fun j => decide (b.getD j ' ' = c))

/-- The autojunk "popular" test of `__chain_b`: with `autojunk` enabled and
`len(b) >= 200`, an element occurring more than `len(b) // 100 + 1` times is
purged from `b2j`. -/
def isPopular (b : List Char) (c : Char) : Bool :=
  decide (200 ≤ b.length) && decide (b.length / 100 + 1 < b.count c)

/-- `b2j[c]`: the positions of `c` in `b`, or `[]` when `c` was purged as
popular. -/
def b2j (b : List Char) (c : Char) : List Nat :=
  if isPopular b c then [] else positionsOf b c

/-- Result triple of `find_longest_match`. -/
structure FlmBest where
  besti : Nat
  bestj : Nat
  bestsize : Nat
deriving Repr, DecidableEq

/-- One iteration of the inner `for j in b2j.get(a[i])` loop: `j2len` is the
previous row's map (`j2len[j-1]` defaulting to 0, and Python's index `-1`
when `j = 0` is likewise absent), `st.1` the map being built for this row. -/
def flmRowStep (i : Nat) (j2len : Nat → Nat)
    (st : (Nat → Nat) × FlmBest) (j : Nat) : (Nat → Nat) × FlmBest :=
  let k := (if j = 0 then 0 else j2len (j - 1)) + 1
  let newj2len : Nat → Nat := fun x => if x = j then k else st.1 x
  -- Python computes besti = i-k+1 over ints; k ≤ i+1 and k ≤ j+1 always
  -- hold, so i+1-k / j+1-k are the same values, well defined over Nat
  let best := if st.2.bestsize < k then FlmBest.mk (i + 1 - k) (j + 1 - k) k else st.2
  (newj2len, best)

/-- One iteration of the outer `for i in range(alo, ahi)` loop: positions are
visited in increasing order, skipping `j < blo` and stopping at `j >= bhi`;
the row starts from an empty `newj2len`. -/
def flmRow (i blo bhi : Nat) (js : List Nat) (j2len : Nat → Nat) (best : FlmBest) :
    (Nat → Nat) × FlmBest :=
  ((js.takeWhile (fun j => decide (j < bhi))).filter (fun j => decide (blo ≤ j))).foldl
    (flmRowStep i j2len) (fun _ => 0, best)

/-- The junk-free matching loop of `find_longest_match`. -/
def flmLoop (a b : List Char) (alo ahi blo bhi : Nat) : FlmBest :=
  ((List.range' alo (ahi - alo)).foldl
    (fun st i => flmRow i blo bhi (b2j b (a.getD i ' ')) st.1 st.2)
    (fun _ => 0, FlmBest.mk alo blo 0)).2

/-- The backward extension loop (`bjunk` is empty, so only the element
equality and the interval bounds are tested).  Fuel `besti` suffices since
`besti` decreases at every step. -/
def extendBack (a b : List Char) (alo blo : Nat) :
    Nat → Nat → Nat → Nat → FlmBest
  | 0, besti, bestj, size => FlmBest.mk besti bestj size
  | fuel + 1, besti, bestj, size =>
    if alo < besti ∧ blo < bestj ∧ a.getD (besti - 1) ' ' = b.getD (bestj - 1) ' ' then
      extendBack a b alo blo fuel (besti - 1) (bestj - 1) (size + 1)
    else FlmBest.mk besti bestj size

/-- The forward extension loop; fuel `ahi` suffices since `besti + size`
increases up to `ahi`. -/
def extendFwd (a b : List Char) (ahi bhi : Nat) :
    Nat → Nat → Nat → Nat → Nat
  | 0, _, _, size => size
  | fuel + 1, besti, bestj, size =>
    if besti + size < ahi ∧ bestj + size < bhi ∧
        a.getD (besti + size) ' ' = b.getD (bestj + size) ' ' then
      extendFwd a b ahi bhi fuel besti bestj (size + 1)
    else size

/-- `find_longest_match(alo, ahi, blo, bhi)`: the junk-free loop, then the
two non-junk extension `while` loops. -/
def find_longest_match (a b : List Char) (alo ahi blo bhi : Nat) : FlmBest :=
  let m := flmLoop a b alo ahi blo bhi
  let m2 := extendBack a b alo blo m.besti m.besti m.bestj m.bestsize
  FlmBest.mk m2.besti m2.bestj (extendFwd a b ahi bhi ahi m2.besti m2.bestj m2.bestsize)

/-- The recursive block collection of `get_matching_blocks` (the source uses
an explicit queue and sorts afterwards; in-order recursion yields the sorted
list directly).  Fuel `ahi + bhi + 1` suffices: every recursive call strictly
shrinks the interval sum. -/
def matchingBlocksAux (a b : List Char) :
    Nat → Nat → Nat → Nat → Nat → List (Nat × Nat × Nat)
  | 0, _, _, _, _ => []
  | fuel + 1, alo, ahi, blo, bhi =>
    let m := find_longest_match a b alo ahi blo bhi
    if m.bestsize = 0 then []
    else
      (if alo < m.besti ∧ blo < m.bestj then
        matchingBlocksAux a b fuel alo m.besti blo m.bestj
      else [])
      ++ [(m.besti, m.bestj, m.bestsize)]
      ++ (if m.besti + m.bestsize < ahi ∧ m.bestj + m.bestsize < bhi then
        matchingBlocksAux a b fuel (m.besti + m.bestsize) ahi (m.bestj + m.bestsize) bhi
      else [])

/-- The adjacent-block collapsing pass of `get_matching_blocks`
(`non_adjacent`): a pending block `(i1, j1, k1)` absorbs an adjacent next
block, and is emitted when non-adjacent (the initial pending `k1 = 0` dummy
is dropped). -/
def collapseBlocks : (Nat × Nat × Nat) → List (Nat × Nat × Nat) → List (Nat × Nat × Nat)
  | (i1, j1, k1), [] => if k1 ≠ 0 then [(i1, j1, k1)] else []
  | (i1, j1, k1), (i2, j2, k2) :: rest =>
    if i1 + k1 = i2 ∧ j1 + k1 = j2 then collapseBlocks (i1, j1, k1 + k2) rest
    else (if k1 ≠ 0 then [(i1, j1, k1)] else []) ++ collapseBlocks (i2, j2, k2) rest

/-- `get_matching_blocks()`: collapsed blocks plus the `(la, lb, 0)`
sentinel. -/
def get_matching_blocks (a b : List Char) : List (Nat × Nat × Nat) :=
  collapseBlocks (0, 0, 0)
    (matchingBlocksAux a b (a.length + b.length + 1) 0 a.length 0 b.length)
  ++ [(a.length, b.length, 0)]

/-- Total size of the matching blocks (the sentinel contributes 0). -/
def smMatched (a b : List Char) : Nat :=
  ((get_matching_blocks a b).map (fun t => t.2.2)).sum

/-- `SequenceMatcher.ratio()` as an exact rational:
`2 * matches / (len(a) + len(b))`, and 1 when both sequences are empty
(`mkRat` is the exact rational of that division). -/
def ratio_q (a b : List Char) : ℚ :=
  if a.length + b.length ≠ 0 then mkRat (2 * smMatched a b) (a.length + b.length) else 1

/-- `title_similarity(a, b)`: 0 when either string is empty (Python
truthiness), else the ratio of the lowercased strings. -/
def title_similarity (a b : String) : ℚ :=
  if a = "" || b = "" then 0
  else ratio_q (a.data.map pyLowerChar) (b.data.map pyLowerChar)

/-!
The Crossref message model and the per-document pipeline of `main`.

A `Msg` models the `message` dict returned by Crossref for one work.  An
`Option` field is `none` when the JSON key is absent, which is what the
`dict.get` defaults depend on; `title`/`container-title` hold the full list
so that a present-but-empty list (the `IndexError` source) is representable.
The nested `msg.get('issued', {}).get('date-parts', [[None]])` chain is
collapsed into one optional `dateParts` field since both `get` levels share
the `[[None]]` default.  The resolver collaborators are oracles
`String → Option Msg`; `none` covers every "nothing" outcome (missing DOI,
non-200 status, timeout, malformed payload), which the source swallows.
-/

/-- One author entry of a Crossref message. -/
structure Author where
  given : Option String
  family : Option String
deriving Repr, DecidableEq

/-- A Crossref `message` dict, restricted to the fields the program reads. -/
structure Msg where
  DOI : Option String
  type : Option String
  title : Option (List String)
  author : List Author
  dateParts : Option (List (List (Option Int)))
  containerTitle : Option (List String)
  volume : Option String
  issue : Option String
  page : Option String
  URL : Option String
deriving Repr, DecidableEq

/-- Python truthiness of an optional string (`None` and `""` are falsy). -/
def optStrTruthy : Option String → Bool
  | none => false
  | some s => !(s = "")

/-- Python falsiness of an optional string. -/
def optStrFalsy (o : Option String) : Bool := !(optStrTruthy o)

/-- The `cr_title` computation of the source: `msg['title'][0]` when
`msg.get('title')` is a non-empty list, else `""`.  (The same expression also
evaluates `(msg.get('title') or [''])[0]` in the fallback branch.) -/
def titleOfMsg (msg : Msg) : String :=
  match msg.title with
  | some (t :: _) => t
  | _ => ""

/-!
The thesis-word regex of `is_thesis`:
`\b(thesis|dissertation|ph\.?d|master's)\b` with IGNORECASE, searched
anywhere in the first-pages text.  All alternatives start and end with word
characters, so the boundaries amount to a non-word (or absent) neighbor.
-/

/-- Trailing `\b` after an alternative ending in a word character: end of
text or a non-word successor. -/
def nonWordAfter : List Char → Bool
  | [] => true
  | c :: _ => !(isWordChar c)

/-- The spelled-out `master's` alternative. -/
def masterWord : List Char := ['m', 'a', 's', 't', 'e', 'r', apos, 's']

/-- Does one of the four alternatives (with its trailing boundary) match at
the head of `l`?  `ph.?d` is expanded into its two shapes: `ph` + any
non-newline character + `d`, or plain `phd`. -/
def thesisAltAt (l : List Char) : Bool :=
  (match matchCI "thesis".data l with
    | some rest => nonWordAfter rest
    | none => false) ||
  (match matchCI "dissertation".data l with
    | some rest => nonWordAfter rest
    | none => false) ||
  (match matchCI ['p', 'h'] l with
    | some rest =>
      (match rest with
        | x :: rest2 =>
          (!(x = '\n') &&
            (match rest2 with
              | d :: rest3 => d.toLower = 'd' && nonWordAfter rest3
              | [] => false)) ||
          (x.toLower = 'd' && nonWordAfter rest2)
        | [] => false)
    | none => false) ||
  (match matchCI masterWord l with
    | some rest => nonWordAfter rest
    | none => false)

/-- `re.search` scan for the thesis-word regex: try every position, with the
leading boundary against the previous character. -/
def thesisSearchAux : Option Char → List Char → Bool
  | _, [] => false
  | prev, c :: rest =>
    (nonWordBefore prev && thesisAltAt (c :: rest)) || thesisSearchAux (some c) rest

/-- Whether the thesis-word regex matches anywhere in `s`. -/
def thesisRegexSearch (s : String) : Bool := thesisSearchAux none s.data

/-- `is_thesis(crossref_msg, pdf_title_candidate, first_pages_text,
filename)`: the first-true-wins chain of heuristics of the source.  The
`filename` parameter defaults to `None` in Python and — as in the source —
is checked last, only when truthy. -/
def is_thesis (crossref_msg : Option Msg) (pdf_title_candidate : String)
    (first_pages_text : String) (filename : Option String) : Bool :=
  (match crossref_msg with
    | some msg =>
      let typ := pyLower (msg.type.getD "")
      strContains typ "dissertation" || strContains typ "thesis" ||
      (let cr_title := match msg.title with
        | some (t :: _) => pyLower t
        | _ => ""
       strContains cr_title "thesis" || strContains cr_title "dissertation")
    | none => false) ||
  (!(pdf_title_candidate = "") &&
    (["thesis", "dissertation", "phd", "ph.d"].any
      (fun k => strContains (pyLower pdf_title_candidate) k))) ||
  (!(first_pages_text = "") && thesisRegexSearch first_pages_text) ||
  (match filename with
    | some fn =>
      !(fn = "") &&
      (let f := pyLower fn
       strContains f "thesis" || strContains f "dissert" || strContains f "phd" ||
       strContains f "dissertation")
    | none => false)

/-- Runs of non-word characters are each replaced by a single `_`
(`re.sub(r'\W+', '_', s)`); `inRun` records whether the previous character
was part of a non-word run. -/
def subNonWordAux (inRun : Bool) : List Char → List Char
  | [] => []
  | c :: rest =>
    if isWordChar c then c :: subNonWordAux false rest
    else if inRun then subNonWordAux true rest
    else '_' :: subNonWordAux true rest

/-- `re.sub(r'\W+', '_', s)`. -/
def pyReSubNonWord (l : List Char) : List Char := subNonWordAux false l

/-- Python `str.strip('_')`. -/
def pyStripUnderscore (l : List Char) : List Char :=
  ((l.dropWhile (fun c => c = '_')).reverse.dropWhile (fun c => c = '_')).reverse

/-- Join a list of strings with a separator (Python `sep.join`). -/
def joinSep (sep : String) : List String → String
  | [] => ""
  | [x] => x
  | x :: y :: rest => x ++ sep ++ joinSep sep (y :: rest)

/-- `crossref_msg.get(key, [''])[0]`: `""` when the key is absent, the first
element when present and non-empty, and Python's `IndexError` when the key
holds an empty list. -/
def indexZero (o : Option (List String)) : Except String String :=
  match o with
  | none => Except.ok ""
  | some [] => Except.error "list index out of range"
  | some (t :: _) => Except.ok t

/-- The `year_parts[0][0]` access under the `year_parts and ...` guards of
both builders: `none` when `year_parts` is empty (guard short-circuits),
`IndexError` when its first element is an empty list, otherwise the first
entry. -/
def firstDatePart (year_parts : List (List (Option Int))) :
    Except String (Option (Option Int)) :=
  match year_parts with
  | [] => Except.ok none
  | ys0 :: _ =>
    match ys0 with
    | [] => Except.error "list index out of range"
    | y0 :: _ => Except.ok (some y0)

/-- Python truthiness of `year_parts[0][0]` (`None` and `0` are falsy). -/
def optIntTruthy : Option Int → Bool
  | none => false
  | some n => !(n = 0)

/-- `to_bibtex_entry(crossref_msg, pdf_filename, is_thesis_flag)`: the entry
dict as an ordered field list with empty values removed.  Python raises
`IndexError` when a present `title`/`container-title` is an empty list or
when `date-parts` is `[[]]`-shaped; those raises become `.error` here, at
the same program points and in the source's evaluation order. -/
def to_bibtex_entry (msg : Msg) (pdf_filename : String) (is_thesis_flag : Bool) :
    Except String (List (String × String)) := do
  let doi := msg.DOI
  let kind := msg.type.getD "article-journal"
  let bibtype0 := if strContains kind "journal" then "article" else "misc"
  let bibtype := if is_thesis_flag then "phdthesis" else bibtype0
  let authors := msg.author
  let first_author := match authors with
    | [] => "anon"
    | a :: _ => a.family.getD (a.given.getD "")
  let year_parts := msg.dateParts.getD [[none]]
  let y0 ← firstDatePart year_parts
  let year := match y0 with
    | some v => if optIntTruthy v then toString (v.getD 0) else "n.d."
    | none => "n.d."
  let title ← indexZero msg.title
  let key := String.mk (pyStripUnderscore (pyReSubNonWord
    (first_author ++ "_" ++ year ++ "_" ++ String.mk (title.data.take 30)).data))
  let authorStr := if authors.isEmpty then ""
    else joinSep " and " (authors.map (fun a =>
      String.mk (pyStrip ((a.given.getD "") ++ " " ++ (a.family.getD "")).data)))
  let journal ← indexZero msg.containerTitle
  let fields : List (String × String) :=
    [("ID", key), ("ENTRYTYPE", bibtype), ("title", title), ("author", authorStr),
     ("year", year), ("journal", journal), ("volume", msg.volume.getD ""),
     ("issue", msg.issue.getD ""), ("pages", msg.page.getD ""),
     ("doi", doi.getD ""), ("url", msg.URL.getD ""),
     ("note", "PDF file: " ++ pdf_filename)]
  Except.ok (fields.filter (fun kv => kv.2 ≠ ""))

/-- The RIS `TY` type map of the source. -/
def risTypeMap : List (String × String) :=
  [("article-journal", "JOUR"), ("book", "BOOK"), ("report", "RPRT"),
   ("proceedings-article", "CPAPER")]

/-- `to_ris_entry(crossref_msg, pdf_filename, is_thesis_flag)`: the RIS
record as one string of tag lines.  The `IndexError` sources are the same
present-but-empty `title`/`container-title` lists and `[[]]`-shaped
`date-parts` (the `if year_parts and year_parts[0][0]` guard evaluates
`year_parts[0]` whenever `year_parts` is non-empty). -/
def to_ris_entry (msg : Msg) (pdf_filename : String) (is_thesis_flag : Bool) :
    Except String String := do
  let typ := msg.type.getD "article-journal"
  let ris_type0 := match risTypeMap.find? (fun kv => kv.1 = typ) with
    | some kv => kv.2
    | none => "GEN"
  let ris_type := if is_thesis_flag then "THES" else ris_type0
  let auLines := ((msg.author.map (fun a =>
      String.mk (pyStrip (joinSep " "
        (([a.given.getD "", a.family.getD ""]).filter (fun s => !(s = "")))).data))).filter
    (fun fn => !(fn = ""))).map (fun fn => "AU  - " ++ fn)
  let title ← indexZero msg.title
  let tiLines := if title ≠ "" then ["TI  - " ++ title] else []
  let container ← indexZero msg.containerTitle
  let joLines := if container ≠ "" then ["JO  - " ++ container] else []
  let year_parts := msg.dateParts.getD [[none]]
  let y0 ← firstDatePart year_parts
  let pyLines := match y0 with
    | some v => if optIntTruthy v then ["PY  - " ++ toString (v.getD 0)] else []
    | none => []
  let vlLines := if optStrTruthy msg.volume then ["VL  - " ++ msg.volume.getD ""] else []
  let isLines := if optStrTruthy msg.issue then ["IS  - " ++ msg.issue.getD ""] else []
  let spLines := if optStrTruthy msg.page then ["SP  - " ++ msg.page.getD ""] else []
  let doLines := if optStrTruthy msg.DOI then ["DO  - " ++ msg.DOI.getD ""] else []
  let urLines := if optStrTruthy msg.URL then ["UR  - " ++ msg.URL.getD ""] else []
  Except.ok (joinSep "\n"
    (["TY  - " ++ ris_type] ++ auLines ++ tiLines ++ joLines ++ pyLines ++ vlLines ++
     isLines ++ spLines ++ doLines ++ urLines ++
     ["NOTE - PDF file: " ++ pdf_filename, "ER  - "]))

/-!
The per-document body of `main`, parameterized by the two resolver oracles.
`time.sleep` pacing and the CSV/file serialization are external
collaborators and have no effect on the decision state.
-/

/-- Config constant `TITLE_SIM_THRESHOLD = 0.55`. -/
def TITLE_SIM_THRESHOLD : ℚ := mkRat 55 100

/-- Config constant `HIGH_CONFIDENCE_TAGS`. -/
def HIGH_CONFIDENCE_TAGS : List String := ["firstpages_label", "firstpages_any"]

/-- Config constant `AUTO_ACCEPT_TITLE_SEARCH = False`. -/
def AUTO_ACCEPT_TITLE_SEARCH : Bool := false

/-- The loop state of the candidate scan (initialized before the loop in
`main`): the accepted candidate data and the running `cr_title`. -/
structure ScanState where
  chosen : Option String
  chosen_msg : Option Msg
  chosen_confidence : String
  chosen_tag : Option String
  chosen_sim : ℚ
  cr_title : String
deriving Repr, DecidableEq

/-- The `for doi_cand, tag in candidates` loop of `main`: resolve each
candidate; an unresolved candidate is skipped; a resolved one is accepted
with confidence `high` when its tag is high-trust, with `medium` when the
title similarity reaches the threshold, and is otherwise discarded (the
resolved title still overwrites `cr_title`).  The loop breaks at the first
acceptance.  `crTitle` threads the `cr_title` variable. -/
def scan_candidates (resolve : String → Option Msg) (titleCand : String) :
    List (String × String) → String → ScanState
  | [], crTitle => ⟨none, none, "", none, 0, crTitle⟩
  | (doi_cand, tag) :: rest, crTitle =>
    match resolve doi_cand with
    | none => scan_candidates resolve titleCand rest crTitle
    | some msg =>
      let crTitle2 := titleOfMsg msg
      let sim := title_similarity titleCand crTitle2
      if tag ∈ HIGH_CONFIDENCE_TAGS then
        ⟨some doi_cand, some msg, "high", some tag, sim, crTitle2⟩
      else if TITLE_SIM_THRESHOLD ≤ sim then
        ⟨some doi_cand, some msg, "medium", some tag, sim, crTitle2⟩
      else scan_candidates resolve titleCand rest crTitle2

/-- One row of the CSV report (`report_rows.append` in `main`).  The
similarity column is kept as its exact value (`none` when `chosen_sim` is
the falsy 0.0); the `%.3f` rendering belongs to the report emitter. -/
structure ReportRow where
  filename : String
  doi : String
  status : String
  doi_source : String
  confidence : String
  tag : String
  sim : Option ℚ
  cr_title : String
  pdf_title_candidate : String
  type_hint : String
  warning : String
deriving Repr, DecidableEq

/-- One row of the manual-review CSV (`manual_review_rows.append`). -/
structure ReviewRow where
  filename : String
  pdf_title_candidate : String
  attempted_cr_title : String
  attempted_cr_doi : Option String
  sim : Option ℚ
  reason : String
deriving Repr, DecidableEq

/-- Approximation of Python's `f"{x:.3f}"` on the exact ratio (used only
inside the free-text warning string, which no claim inspects beyond
emptiness): rounds to three decimals. -/
def fmt3 (q : ℚ) : String :=
  let scaled := (q.num * 1000 + (q.den : Int) / 2) / (q.den : Int)
  let fp := (scaled % 1000).toNat
  toString (scaled / 1000) ++ "." ++
    (if fp < 10 then "00" else if fp < 100 then "0" else "") ++ toString fp

/-- One input document: its filename and the texts the two
`extract_text` calls would produce (extraction failure is empty text). -/
structure Document where
  filename : String
  textFirst : String
  textFull : String
deriving Repr, DecidableEq

/-- The document's title candidate (`pdf_title_candidate` in `main`). -/
def tcOf (doc : Document) : String := extract_title_candidate_from_text doc.textFirst

/-- The candidate list of `main`: first-pages only (`text_full` is still
`""`), then — only when that is empty — re-extracted with the full text. -/
def candidatesOf (doc : Document) : List (String × String) :=
  let c0 := find_doi_candidates_in_pdf_text "" doc.textFirst
  if c0.isEmpty then find_doi_candidates_in_pdf_text doc.textFull doc.textFirst else c0

/-- The scan-loop result for a document. -/
def scanOf (resolveDoi : String → Option Msg) (doc : Document) : ScanState :=
  scan_candidates resolveDoi (tcOf doc) (candidatesOf doc) ""

/-- The `institution_terms` tuple of the title-search guard in `main`
(narrower than the title extractor's list). -/
def institution_terms : List (List Char) :=
  ["university".data, "college".data, "department".data, "institute".data,
   "school".data, "brigham".data]

/-- Everything `main` produces for one document: its report row, the
accepted message (`chosen_msg` at finalization) and the four output
collections after the append operations of this iteration. -/
structure DocResult where
  row : ReportRow
  accepted : Option Msg
  bib : List (List (String × String))
  ris : List String
  report : List ReportRow
  review : List ReviewRow
deriving Repr

/-- The title-search fallback attempt of `main`: attempted when nothing was
chosen by the scan and a title candidate exists; recorded (with its
similarity) only when the result carries a truthy DOI — this is the
`title_search_attempted`/`title_search_msg`/`title_search_sim` trio. -/
def fbOf (resolveDoi resolveTitle : String → Option Msg) (doc : Document) :
    Option (Msg × ℚ) :=
  let pdf_title_candidate := tcOf doc
  let st := scanOf resolveDoi doc
  if optStrFalsy st.chosen ∧ pdf_title_candidate ≠ "" then
    match resolveTitle pdf_title_candidate with
    | some m =>
      if optStrTruthy m.DOI then
        some (m, title_similarity pdf_title_candidate (titleOfMsg m))
      else none
    | none => none
  else none

/-- The per-document body of `main`: candidate scan, title-search fallback
(recorded but never auto-accepted unless `AUTO_ACCEPT_TITLE_SEARCH`),
finalization with entry construction, and the report/review row appends.
`bib`/`ris`/`report`/`review` are the accumulating collections.  The
resolver oracles stand for `query_crossref_by_doi`/`query_crossref_by_title`
(both swallow transport errors, so they cannot raise; the fallback's
`except` arm is therefore unreachable). -/
def processDoc (resolveDoi resolveTitle : String → Option Msg) (doc : Document)
    (bib : List (List (String × String))) (ris : List String)
    (report : List ReportRow) (review : List ReviewRow) : DocResult :=
  let pdf_title_candidate := tcOf doc
  let st := scanOf resolveDoi doc
  let fb := fbOf resolveDoi resolveTitle doc
  let cr_title := match fb with
    | some (m, _) => titleOfMsg m
    | none => st.cr_title
  -- the auto-accept branch, dead under the default `False` switch
  let acceptFb : Option (Msg × ℚ) :=
    match fb with
    | some (m, sim) =>
      if AUTO_ACCEPT_TITLE_SEARCH then
        if TITLE_SIM_THRESHOLD ≤ sim ∧ 30 ≤ pdf_title_candidate.length ∧
            !(institution_terms.any
              (fun w => containsList w (pyLower pdf_title_candidate).data)) then
          some (m, sim)
        else none
      else none
    | none => none
  let chosen := match acceptFb with
    | some (m, _) => m.DOI
    | none => st.chosen
  let chosen_msg := match acceptFb with
    | some (m, _) => some m
    | none => st.chosen_msg
  let chosen_confidence := match acceptFb with
    | some _ => "title_search"
    | none => st.chosen_confidence
  let chosen_sim := match acceptFb with
    | some (_, sim) => sim
    | none => st.chosen_sim
  let chosen_tag := st.chosen_tag
  match chosen_msg with
  | some msg =>
    let doi := if optStrFalsy chosen then msg.DOI else chosen
    let doi_source :=
      if chosen_confidence = "high" ∨ chosen_confidence = "medium" then
        "pdf_doi_candidate"
      else "title_search"
    let thesis_flag := is_thesis (some msg) pdf_title_candidate doc.textFirst none
    match to_bibtex_entry msg doc.filename thesis_flag with
    | Except.ok bib_entry =>
      match to_ris_entry msg doc.filename thesis_flag with
      | Except.ok ris_entry =>
        let row : ReportRow :=
          ⟨doc.filename, doi.getD "", "matched", doi_source, chosen_confidence,
           chosen_tag.getD "", (if chosen_sim = 0 then none else some chosen_sim),
           replaceNewlines cr_title, replaceNewlines pdf_title_candidate,
           (if thesis_flag then "thesis" else ""), ""⟩
        ⟨row, some msg, bib ++ [bib_entry], ris ++ [ris_entry], report ++ [row], review⟩
      | Except.error e =>
        -- the BibTeX entry was appended before `to_ris_entry` raised
        let row : ReportRow :=
          ⟨doc.filename, doi.getD "", "error", doi_source, chosen_confidence,
           chosen_tag.getD "", (if chosen_sim = 0 then none else some chosen_sim),
           replaceNewlines cr_title, replaceNewlines pdf_title_candidate,
           (if thesis_flag then "thesis" else ""), "Error constructing entry: " ++ e⟩
        ⟨row, some msg, bib ++ [bib_entry], ris, report ++ [row], review⟩
    | Except.error e =>
      let row : ReportRow :=
        ⟨doc.filename, doi.getD "", "error", doi_source, chosen_confidence,
         chosen_tag.getD "", (if chosen_sim = 0 then none else some chosen_sim),
         replaceNewlines cr_title, replaceNewlines pdf_title_candidate,
         (if thesis_flag then "thesis" else ""), "Error constructing entry: " ++ e⟩
      ⟨row, some msg, bib, ris, report ++ [row], review⟩
  | none =>
    let warning := match fb with
      | some (m, sim) =>
        "title_search_no_accept: sim=" ++ fmt3 sim ++ " cr_title=" ++ titleOfMsg m
      | none => ""
    let review2 := match fb with
      | some (m, sim) =>
        review ++ [⟨doc.filename, replaceNewlines pdf_title_candidate, titleOfMsg m,
          m.DOI, some sim, "title_search_no_accept"⟩]
      | none => review
    let row : ReportRow :=
      ⟨doc.filename, "", "no_match", "", chosen_confidence, chosen_tag.getD "",
       (if chosen_sim = 0 then none else some chosen_sim), replaceNewlines cr_title,
       replaceNewlines pdf_title_candidate, "", warning⟩
    ⟨row, none, bib, ris, report ++ [row], review2⟩

/-- Similarity score a candidate would receive: the title similarity against
the resolved record's title (0 when unresolved; unused in that case). -/
def simOfSpec (resolve : String → Option Msg) (titleCand : String) (d : String) : ℚ :=
  match resolve d with
  | some msg => title_similarity titleCand (titleOfMsg msg)
  | none => 0

/-- Acceptance rule of the Match Decision Engine, stated from the spec's
words (C1): a candidate is accepted iff it resolves to a record and either
its provenance tag is first-pages (high trust) or the title similarity
reaches the threshold. -/
def acceptance_rule (resolve : String → Option Msg) (titleCand : String)
    (c : String × String) : Bool :=
  (resolve c.1).isSome &&
  (decide (c.2 ∈ HIGH_CONFIDENCE_TAGS) ||
   decide (TITLE_SIM_THRESHOLD ≤ simOfSpec resolve titleCand c.1))

/-- The messages resolved during the candidate scan, in resolution order:
the loop resolves candidates until one is accepted (which ends the list) or
the candidates run out; a resolved-but-discarded message stays in the
sequence.  This is the spec-side description (C10) of which records the
engine saw. -/
def scanResolved (resolve : String → Option Msg) (titleCand : String) :
    List (String × String) → List Msg
  | [] => []
  | (d, t) :: rest =>
    match resolve d with
    | none => scanResolved resolve titleCand rest
    | some msg =>
      if t ∈ HIGH_CONFIDENCE_TAGS then [msg]
      else if TITLE_SIM_THRESHOLD ≤ title_similarity titleCand (titleOfMsg msg) then [msg]
      else msg :: scanResolved resolve titleCand rest

/-- All records resolved while processing a document: the scan's messages
followed by the recorded title-fallback record, if any (spec side, C10). -/
def resolvedSeq (rd rt : String → Option Msg) (doc : Document) : List Msg :=
  scanResolved rd (tcOf doc) (candidatesOf doc) ++
  (match fbOf rd rt doc with
   | some (m, _) => [m]
   | none => [])

/-!
Interval bounds for `find_longest_match` and the block sums, leading to
`ratio_q ∈ [0, 1]`.
-/

/-- Interval invariant for a `find_longest_match` candidate: the matched
slices lie inside `[alo, ub)` and `[blo, bhi)`. -/
def BestIn (alo ub blo bhi : Nat) (m : FlmBest) : Prop :=
  alo ≤ m.besti ∧ m.besti + m.bestsize ≤ ub ∧ blo ≤ m.bestj ∧ m.bestj + m.bestsize ≤ bhi

/-- Invariant of a `j2len` row map after `bound` rows: every entry is at
most `bound`, and a nonzero entry at `j` describes a run ending at column
`j` inside `[blo, j]`. -/
def J2Bound (blo bound : Nat) (f : Nat → Nat) : Prop :=
  ∀ j, f j ≤ bound ∧ (1 ≤ f j → blo ≤ j ∧ blo + f j ≤ j + 1)

/-!
Self-similarity: on `a = b` the matching loop only ever records diagonal
candidates (`besti = bestj`), the extension loops then grow any diagonal
candidate to the whole interval, so `ratio_q s s = 1` for nonempty `s`.

`diagChain s i` is the length of the maximal run of non-popular positions
ending at `i`; `RunAt s i j v` says the `v` characters ending at row `i` /
column `j` match pairwise and are non-popular, which is what a nonzero
`j2len` entry denotes on a self-comparison.
-/

/-- Length of the maximal suffix of `[0..i]` whose characters are all
non-popular (popular characters have empty `b2j` chains and break runs). -/
def diagChain (s : List Char) : Nat → Nat
  | 0 => if isPopular s (s.getD 0 ' ') then 0 else 1
  | i + 1 => if isPopular s (s.getD (i + 1) ' ') then 0 else diagChain s i + 1

/-- A matching run of `v` non-popular characters ending at `(i, j)` in the
self-comparison of `s`. -/
def RunAt (s : List Char) (i j v : Nat) : Prop :=
  v ≤ i + 1 ∧ v ≤ j + 1 ∧
  ∀ t, t < v → s.getD (i - t) ' ' = s.getD (j - t) ' ' ∧
    isPopular s (s.getD (i - t) ' ') = false

/-- State of `flmLoop` on the self-comparison after `cnt` rows. -/
def selfLoopState (s : List Char) (n cnt : Nat) : (Nat → Nat) × FlmBest :=
  (List.range' 0 cnt).foldl
    (fun st i => flmRow i 0 n (b2j s (s.getD i ' ')) st.1 st.2)
    (fun _ => 0, FlmBest.mk 0 0 0)

/-- Resolved record returned by the title-search oracle in the
`title_fallback_review` witness scenario. -/
def msgW2 : Msg := ⟨some "10.9/zz", none, some ["Unrelated"], [], none, none,
  none, none, none, none⟩

/-- A document with no identifier in its text but a long title line. -/
def docW2 : Document := ⟨"a.pdf", "An Exceedingly Long Candidate Title Line", ""⟩

/-- DOI resolver that never resolves. -/
def rdW2 : String → Option Msg := fun _ => none

/-- Title resolver returning `msgW2` for every query. -/
def rtW2 : String → Option Msg := fun _ => some msgW2

/-- Resolved record with a present-but-empty `title` list — the
`IndexError` source of the entry builders. -/
def msgW4 : Msg := ⟨some "10.1234/abc", none, some [], [], none, none,
  none, none, none, none⟩

/-- A document carrying one labeled first-pages DOI candidate. -/
def docW4 : Document := ⟨"c.pdf", "DOI: 10.1234/abc", ""⟩

/-- DOI resolver returning `msgW4` for every query. -/
def rdW4 : String → Option Msg := fun _ => some msgW4

/-- Title resolver that never resolves. -/
def rtW4 : String → Option Msg := fun _ => none


theorem doiNumSlash_length {rest digits rest2 : List Char}
    (h : doiNumSlash rest = some (digits, rest2)) : rest2.length < rest.length := by
  simp only [doiNumSlash] at h
  split at h
  · split at h
    next rest2' heq =>
      have hlen := congrArg List.length heq
      simp only [List.length_drop, List.length_cons] at hlen
      cases h
      omega
    next => cases h
  · cases h

theorem tryDoiMatch_length {prev : Option Char} {l g rest : List Char}
    (h : tryDoiMatch prev l = some (g, rest)) : rest.length < l.length := by
  simp only [tryDoiMatch] at h
  split at h
  · split at h
    next rest0 =>
      split at h
      next digits rest2 hnum =>
        split at h
        next j hcut =>
          cases h
          have h1 := doiNumSlash_length hnum
          have h2 : (rest2.drop j).length ≤ rest2.length := by
            simp [List.length_drop]
          simp only [List.length_cons]
          omega
        next => cases h
      next => cases h
    next => cases h
  · cases h

theorem doiFindAllAux_congr {fuel fuel' : Nat} {prev : Option Char} {l : List Char}
    (h : l.length < fuel) (h' : l.length < fuel') :
    doiFindAllAux fuel prev l = doiFindAllAux fuel' prev l := by
  induction fuel generalizing fuel' prev l with
  | zero => omega
  | succ n ih =>
    cases fuel' with
    | zero => omega
    | succ m =>
      simp only [doiFindAllAux]
      cases htm : tryDoiMatch prev l with
      | some gr =>
        obtain ⟨g, rest⟩ := gr
        have hlen := tryDoiMatch_length htm
        dsimp only
        exact congrArg (List.cons g) (ih (by omega) (by omega))
      | none =>
        cases l with
        | nil => rfl
        | cons c rest =>
          simp only [List.length_cons] at h h'
          exact ih (by omega) (by omega)

theorem matchCI_length {ps l r : List Char} (h : matchCI ps l = some r) :
    r.length + ps.length = l.length := by
  induction ps generalizing l with
  | nil =>
    cases l <;> simp [matchCI] at h <;> simp [h]
  | cons p ps ih =>
    match l with
    | [] => simp [matchCI] at h
    | c :: cs =>
      simp only [matchCI] at h
      split at h
      · have := ih h
        simp only [List.length_cons]
        omega
      · cases h

theorem tryLabelTag_length {l rest : List Char}
    (h : tryLabelTag l = some rest) : rest.length < l.length := by
  unfold tryLabelTag at h
  split at h
  next c rest2 hm =>
    split at h
    · cases h
      have := matchCI_length hm
      simp only [List.length_cons] at this
      omega
    · cases h
  next => cases h

theorem tryUrl_length {l rest : List Char}
    (h : tryUrl l = some rest) : rest.length < l.length := by
  unfold tryUrl at h
  split at h
  next => cases h
  next r0 hm =>
    have hm' := matchCI_length hm
    simp only [List.length_cons, List.length_nil] at hm'
    split at h
    next c rest2 =>
      simp only [List.length_cons] at hm'
      split at h
      · split at h
        next r1 hr1 =>
          cases h
          have := matchCI_length hr1
          simp only [urlTail, List.length_cons, List.length_nil] at this
          omega
        next =>
          have := matchCI_length h
          simp only [urlTail, List.length_cons, List.length_nil] at this
          omega
      · have := matchCI_length h
        simp only [urlTail, List.length_cons, List.length_nil] at this
        omega
    next => cases h

theorem tryLabelStart_length {l rest : List Char}
    (h : tryLabelStart l = some rest) : rest.length < l.length := by
  unfold tryLabelStart at h
  split at h
  next r hr => cases h; exact tryLabelTag_length hr
  next => exact tryUrl_length h

theorem tryDoiCore_length {l g rest : List Char}
    (h : tryDoiCore l = some (g, rest)) : rest.length < l.length := by
  simp only [tryDoiCore] at h
  split at h
  next rest0 =>
    split at h
    next digits rest2 hnum =>
      split at h
      · cases h
      · cases h
        have h1 := doiNumSlash_length hnum
        have h2 : (rest2.drop ((rest2.takeWhile isDoiSuffixChar).length)).length ≤ rest2.length := by
          simp [List.length_drop]
        simp only [List.length_cons]
        omega
    next => cases h
  next => cases h

theorem tryLabelMatch_length {l g rest : List Char}
    (h : tryLabelMatch l = some (g, rest)) : rest.length < l.length := by
  unfold tryLabelMatch at h
  split at h
  next => cases h
  next r hr =>
    have h1 := tryLabelStart_length hr
    have h2 := tryDoiCore_length h
    have h3 : (r.dropWhile isSpaceChar).length ≤ r.length :=
      (List.dropWhile_sublist isSpaceChar (l := r)).length_le
    omega

theorem labelFindAllAux_congr {fuel fuel' : Nat} {l : List Char}
    (h : l.length < fuel) (h' : l.length < fuel') :
    labelFindAllAux fuel l = labelFindAllAux fuel' l := by
  induction fuel generalizing fuel' l with
  | zero => omega
  | succ n ih =>
    cases fuel' with
    | zero => omega
    | succ m =>
      simp only [labelFindAllAux]
      cases htm : tryLabelMatch l with
      | some gr =>
        obtain ⟨g, rest⟩ := gr
        have hlen := tryLabelMatch_length htm
        dsimp only
        exact congrArg (List.cons g) (ih (by omega) (by omega))
      | none =>
        cases l with
        | nil => rfl
        | cons c rest =>
          simp only [List.length_cons] at h h'
          exact ih (by omega) (by omega)

/-!
Structural lemmas about the extractor used by the candidate-ordering,
deduplication and punctuation-stripping claims.
-/

theorem pairwise_of_all {α : Type _} {R : α → α → Prop} (h : ∀ a b, R a b) :
    ∀ l : List α, l.Pairwise R := by
  intro l
  induction l with
  | nil => exact List.Pairwise.nil
  | cons a t ih => exact List.Pairwise.cons (fun b _ => h a b) ih

theorem extract_tag_mem {txt tag : String} {c : String × String}
    (h : c ∈ extract_from_text txt tag) :
    c.2 = tag ++ "_label" ∨ c.2 = tag ++ "_any" := by
  unfold extract_from_text at h
  split at h
  · cases h
  · rcases List.mem_append.1 h with h' | h' <;>
      rcases List.mem_map.1 h' with ⟨m, _, rfl⟩
    · exact Or.inl rfl
    · exact Or.inr rfl

theorem tagRank_fp_label : tagRank ("firstpages" ++ "_label") = 0 := by decide

theorem tagRank_fp_any : tagRank ("firstpages" ++ "_any") = 1 := by decide

theorem tagRank_any_label : tagRank ("anywhere" ++ "_label") = 2 := by decide

theorem tagRank_any_any : tagRank ("anywhere" ++ "_any") = 3 := by decide

theorem extract_rank_mem {txt tag : String} {rL rA : Nat}
    (hL : tagRank (tag ++ "_label") = rL) (hA : tagRank (tag ++ "_any") = rA) :
    ∀ c ∈ extract_from_text txt tag, tagRank c.2 = rL ∨ tagRank c.2 = rA := by
  intro c hc
  rcases extract_tag_mem hc with h | h
  · exact Or.inl (by rw [h, hL])
  · exact Or.inr (by rw [h, hA])

theorem extract_pairwise_rank {txt tag : String} {rL rA : Nat}
    (hL : tagRank (tag ++ "_label") = rL) (hA : tagRank (tag ++ "_any") = rA)
    (hle : rL ≤ rA) :
    (extract_from_text txt tag).Pairwise (fun a b => tagRank a.2 ≤ tagRank b.2) := by
  unfold extract_from_text
  split
  · exact List.Pairwise.nil
  · rw [List.pairwise_append]
    refine ⟨?_, ?_, ?_⟩
    · rw [List.pairwise_map]
      refine pairwise_of_all (fun a b => ?_) _
      simp only [hL]
      exact le_refl rL
    · rw [List.pairwise_map]
      refine pairwise_of_all (fun a b => ?_) _
      simp only [hA]
      exact le_refl rA
    · intro a ha b hb
      rcases List.mem_map.1 ha with ⟨m, _, rfl⟩
      rcases List.mem_map.1 hb with ⟨m2, _, rfl⟩
      simp only [hL, hA]
      exact hle

theorem rawCandidates_pairwise (full first : String) :
    (rawCandidates full first).Pairwise (fun a b => tagRank a.2 ≤ tagRank b.2) := by
  unfold rawCandidates
  rw [List.pairwise_append]
  refine ⟨?_, extract_pairwise_rank tagRank_any_label tagRank_any_any (by omega), ?_⟩
  · split
    · exact extract_pairwise_rank tagRank_fp_label tagRank_fp_any (by omega)
    · exact List.Pairwise.nil
  · intro a ha b hb
    have hb2 := extract_rank_mem tagRank_any_label tagRank_any_any b hb
    split at ha
    · have ha2 := extract_rank_mem tagRank_fp_label tagRank_fp_any a ha
      rcases ha2 with h1 | h1 <;> rcases hb2 with h2 | h2 <;> omega
    · cases ha

theorem dedup_sublist (seen : List String) (l : List (String × String)) :
    (dedupCandidates seen l).Sublist l := by
  induction l generalizing seen with
  | nil => exact List.Sublist.refl []
  | cons hd rest ih =>
    obtain ⟨d, t⟩ := hd
    unfold dedupCandidates
    split
    · exact (ih seen).cons (d, t)
    · exact (ih (pyLower d :: seen)).cons₂ (d, t)

theorem find_doi_pairwise_rank (full first : String) :
    (find_doi_candidates_in_pdf_text full first).Pairwise
      (fun a b => tagRank a.2 ≤ tagRank b.2) :=
  (rawCandidates_pairwise full first).sublist
    (dedup_sublist [] (rawCandidates full first))

theorem dedup_not_seen {seen : List String} {l : List (String × String)}
    {c : String × String} (h : c ∈ dedupCandidates seen l) : pyLower c.1 ∉ seen := by
  induction l generalizing seen with
  | nil => cases h
  | cons hd rest ih =>
    obtain ⟨d, t⟩ := hd
    unfold dedupCandidates at h
    split at h
    next hseen => exact ih h
    next hseen =>
      rcases List.mem_cons.1 h with rfl | h2
      · simpa using hseen
      · intro hc
        exact ih h2 (List.mem_cons_of_mem _ hc)

theorem dedup_pairwise (seen : List String) (l : List (String × String)) :
    (dedupCandidates seen l).Pairwise (fun a b => pyLower a.1 ≠ pyLower b.1) := by
  induction l generalizing seen with
  | nil => exact List.Pairwise.nil
  | cons hd rest ih =>
    obtain ⟨d, t⟩ := hd
    unfold dedupCandidates
    split
    · exact ih seen
    · refine List.Pairwise.cons ?_ (ih (pyLower d :: seen))
      intro b hb
      have := dedup_not_seen hb
      intro hEq
      exact this (by rw [← hEq]; exact List.mem_cons_self _ _)

theorem dedup_find {seen : List String} {l : List (String × String)}
    {c : String × String} (h : c ∈ dedupCandidates seen l) :
    l.find? (fun p => pyLower p.1 == pyLower c.1) = some c := by
  induction l generalizing seen with
  | nil => cases h
  | cons hd rest ih =>
    obtain ⟨d, t⟩ := hd
    unfold dedupCandidates at h
    split at h
    next hseen =>
      have hne : pyLower d ≠ pyLower c.1 := by
        intro hEq
        exact dedup_not_seen h (hEq ▸ hseen)
      rw [List.find?_cons]
      split
      next hbeq =>
        exact absurd (by simpa using hbeq) (by simpa using hne)
      next => exact ih h
    next hseen =>
      rcases List.mem_cons.1 h with rfl | h2
      · rw [List.find?_cons]
        split
        next => rfl
        next hbeq => simp at hbeq
      · have hnotin := dedup_not_seen h2
        have hne : pyLower d ≠ pyLower c.1 := by
          intro hEq
          exact hnotin (hEq ▸ List.mem_cons_self _ _)
        rw [List.find?_cons]
        split
        next hbeq =>
          exact absurd (by simpa using hbeq) (by simpa using hne)
        next => exact ih h2

theorem dropWhile_head_not {p : Char → Bool} {l : List Char} {a : Char}
    (h : (l.dropWhile p).head? = some a) : p a = false := by
  induction l with
  | nil => cases h
  | cons c rest ih =>
    rw [List.dropWhile_cons] at h
    split at h
    · exact ih h
    · simp only [List.head?_cons, Option.some.injEq] at h
      subst h
      simp_all

theorem pyRstripPunct_no_trailing (l : List Char) :
    endsIn (String.mk (pyRstripPunct l)) ['.', ',', ';'] = false := by
  unfold endsIn pyRstripPunct
  dsimp only
  rw [List.getLast?_reverse]
  cases hh : (l.reverse.dropWhile (fun c => c = '.' || c = ',' || c = ';')).head? with
  | none => rfl
  | some a =>
    have hp := dropWhile_head_not hh
    simp only [List.any_cons, List.any_nil, Bool.or_false]
    have hp' := by simpa using hp
    simp [hp'.1.1, hp'.1.2, hp'.2]

theorem mem_find_doi_shape {full first : String} {c : String × String}
    (h : c ∈ find_doi_candidates_in_pdf_text full first) :
    ∃ m : List Char, c.1 = String.mk (pyRstripPunct (pyStrip m)) := by
  have hraw : c ∈ rawCandidates full first :=
    (dedup_sublist [] (rawCandidates full first)).mem h
  unfold rawCandidates at hraw
  rcases List.mem_append.1 hraw with h' | h'
  · split at h'
    · unfold extract_from_text at h'
      split at h'
      · cases h'
      · rcases List.mem_append.1 h' with h'' | h'' <;>
          rcases List.mem_map.1 h'' with ⟨m, _, rfl⟩ <;> exact ⟨m, rfl⟩
    · cases h'
  · unfold extract_from_text at h'
    split at h'
    · cases h'
    · rcases List.mem_append.1 h' with h'' | h'' <;>
        rcases List.mem_map.1 h'' with ⟨m, _, rfl⟩ <;> exact ⟨m, rfl⟩

/-- C1: the candidate scan accepts exactly the first candidate satisfying
the acceptance rule — a resolving first-pages candidate is accepted with
confidence "high" regardless of similarity, any other resolving candidate
with confidence "medium" iff its similarity reaches the threshold (default
0.55), and scanning short-circuits at the first acceptance. -/
theorem scan_decision_rule (resolve : String → Option Msg) (titleCand : String)
    (cands : List (String × String)) (crInit : String) :
    match cands.find? (acceptance_rule resolve titleCand) with
    | none =>
      (scan_candidates resolve titleCand cands crInit).chosen = none ∧
      (scan_candidates resolve titleCand cands crInit).chosen_msg = none ∧
      (scan_candidates resolve titleCand cands crInit).chosen_confidence = "" ∧
      (scan_candidates resolve titleCand cands crInit).chosen_tag = none ∧
      (scan_candidates resolve titleCand cands crInit).chosen_sim = 0
    | some c =>
      (scan_candidates resolve titleCand cands crInit).chosen = some c.1 ∧
      (scan_candidates resolve titleCand cands crInit).chosen_msg = resolve c.1 ∧
      (scan_candidates resolve titleCand cands crInit).chosen_confidence =
        (if c.2 ∈ HIGH_CONFIDENCE_TAGS then "high" else "medium") ∧
      (scan_candidates resolve titleCand cands crInit).chosen_tag = some c.2 ∧
      (scan_candidates resolve titleCand cands crInit).chosen_sim =
        simOfSpec resolve titleCand c.1 := by
  induction cands generalizing crInit with
  | nil =>
    simp only [List.find?_nil]
    exact ⟨rfl, rfl, rfl, rfl, rfl⟩
  | cons hd rest ih =>
    obtain ⟨d, t⟩ := hd
    cases hacc : acceptance_rule resolve titleCand (d, t) with
    | true =>
      rw [List.find?_cons_of_pos _ hacc]
      cases hres : resolve d with
      | none =>
        rw [acceptance_rule, hres] at hacc
        simp at hacc
      | some msg =>
        by_cases hhigh : t ∈ HIGH_CONFIDENCE_TAGS
        · simp [scan_candidates, hres, hhigh, simOfSpec]
        · have hθ : TITLE_SIM_THRESHOLD ≤ title_similarity titleCand (titleOfMsg msg) := by
            rw [acceptance_rule, hres] at hacc
            simp only [Option.isSome_some, Bool.true_and, Bool.or_eq_true,
              decide_eq_true_eq] at hacc
            rcases hacc with h | h
            · exact absurd h hhigh
            · rw [simOfSpec, hres] at h
              exact h
          simp [scan_candidates, hres, hhigh, hθ, simOfSpec]
    | false =>
      rw [List.find?_cons_of_neg _ (by simp [hacc])]
      cases hres : resolve d with
      | none =>
        simp only [scan_candidates, hres]
        exact ih crInit
      | some msg =>
        rw [acceptance_rule, hres] at hacc
        simp only [Option.isSome_some, Bool.true_and, Bool.or_eq_false_iff,
          decide_eq_false_iff_not] at hacc
        obtain ⟨h1, h2⟩ := hacc
        rw [simOfSpec, hres] at h2
        simp only [scan_candidates, hres, if_neg h1, if_neg h2]
        exact ih _

theorem exc_bind_ok {α β : Type} (a : α) (f : α → Except String β) :
    (Except.ok a >>= f) = f a := rfl

theorem exc_bind_error {α β : Type} (e : String) (f : α → Except String β) :
    ((Except.error e : Except String α) >>= f) = Except.error e := rfl

/-- The two entry builders fail under exactly the same conditions (an empty
`title` or `container-title` list, or an empty first `date-parts` entry), so
a successful BibTeX build guarantees a successful RIS build. -/
theorem to_ris_ok_of_to_bibtex_ok {msg : Msg} {f : String} {th : Bool}
    {v : List (String × String)} (h : to_bibtex_entry msg f th = Except.ok v) :
    ∃ r, to_ris_entry msg f th = Except.ok r := by
  cases hd : firstDatePart (msg.dateParts.getD [[none]]) with
  | error e =>
    rw [to_bibtex_entry] at h
    rw [hd] at h
    simp [exc_bind_error] at h
  | ok y0 =>
    cases ht : indexZero msg.title with
    | error e =>
      rw [to_bibtex_entry] at h
      rw [hd, ht] at h
      simp [exc_bind_ok, exc_bind_error] at h
    | ok t =>
      cases hc : indexZero msg.containerTitle with
      | error e =>
        rw [to_bibtex_entry] at h
        rw [hd, ht, hc] at h
        simp [exc_bind_ok, exc_bind_error] at h
      | ok c =>
        cases hr : to_ris_entry msg f th with
        | ok r => exact ⟨r, rfl⟩
        | error e =>
          rw [to_ris_entry] at hr
          simp only [ht, hc, exc_bind_ok] at hr
          rw [hd] at hr
          simp [exc_bind_ok] at hr

/-- A scan that accepted no message also chose no candidate (the two fields
are set together). -/
theorem scan_msg_none_chosen_none (resolve : String → Option Msg)
    (titleCand : String) (cands : List (String × String)) (crInit : String)
    (h : (scan_candidates resolve titleCand cands crInit).chosen_msg = none) :
    (scan_candidates resolve titleCand cands crInit).chosen = none := by
  induction cands generalizing crInit with
  | nil => rfl
  | cons hd rest ih =>
    obtain ⟨d, t⟩ := hd
    cases hres : resolve d with
    | none =>
      simp only [scan_candidates, hres] at h ⊢
      exact ih crInit h
    | some msg =>
      by_cases hhigh : t ∈ HIGH_CONFIDENCE_TAGS
      · simp [scan_candidates, hres, if_pos hhigh] at h
      · by_cases hsim : TITLE_SIM_THRESHOLD ≤ title_similarity titleCand (titleOfMsg msg)
        · simp [scan_candidates, hres, if_neg hhigh, if_pos hsim] at h
        · simp only [scan_candidates, hres, if_neg hhigh, if_neg hsim] at h ⊢
          exact ih _ h

/-- Inversion of a recorded title-search attempt: the scan chose nothing,
the title candidate is non-empty, and the query returned a record with a
truthy DOI whose similarity was stored. -/
theorem fbOf_some_inv {rd rt : String → Option Msg} {doc : Document}
    {m : Msg} {sim : ℚ} (h : fbOf rd rt doc = some (m, sim)) :
    optStrFalsy (scanOf rd doc).chosen = true ∧ tcOf doc ≠ "" ∧
    rt (tcOf doc) = some m ∧ optStrTruthy m.DOI = true ∧
    sim = title_similarity (tcOf doc) (titleOfMsg m) := by
  simp only [fbOf] at h
  by_cases hguard : optStrFalsy (scanOf rd doc).chosen = true ∧ tcOf doc ≠ ""
  · rw [if_pos hguard] at h
    cases hq : rt (tcOf doc) with
    | none =>
      rw [hq] at h
      cases h
    | some m0 =>
      rw [hq] at h
      dsimp only at h
      by_cases hdoi : optStrTruthy m0.DOI = true
      · rw [if_pos hdoi] at h
        cases h
        exact ⟨hguard.1, hguard.2, rfl, hdoi, rfl⟩
      · rw [if_neg hdoi] at h
        cases h
  · rw [if_neg hguard] at h
    cases h

/-- C2: with the auto-accept switch disabled (the default), a title-search
attempt that returns a record with an identifier is never accepted: the
document ends `no_match` with no accepted record and nothing added to the
bibliography outputs, and exactly one manual-review entry is appended
carrying the title candidate, the rejected record's title and identifier,
the similarity and the reason code.  Conversely, the review collection grows
only for a `no_match` document whose title query was attempted and returned
a record with an identifier. -/
theorem title_fallback_review (rd rt : String → Option Msg) (doc : Document)
    (bib : List (List (String × String))) (ris : List String)
    (report : List ReportRow) (review : List ReviewRow) :
    ((scanOf rd doc).chosen_msg = none →
      ∀ m : Msg, tcOf doc ≠ "" → rt (tcOf doc) = some m →
      optStrTruthy m.DOI = true →
      (processDoc rd rt doc bib ris report review).row.status = "no_match" ∧
      (processDoc rd rt doc bib ris report review).accepted = none ∧
      (processDoc rd rt doc bib ris report review).bib = bib ∧
      (processDoc rd rt doc bib ris report review).ris = ris ∧
      (processDoc rd rt doc bib ris report review).review = review ++
        [⟨doc.filename, replaceNewlines (tcOf doc), titleOfMsg m, m.DOI,
          some (title_similarity (tcOf doc) (titleOfMsg m)),
          "title_search_no_accept"⟩] ∧
      (processDoc rd rt doc bib ris report review).report =
        report ++ [(processDoc rd rt doc bib ris report review).row]) ∧
    ((processDoc rd rt doc bib ris report review).review ≠ review →
      (processDoc rd rt doc bib ris report review).row.status = "no_match" ∧
      tcOf doc ≠ "" ∧
      ∃ m : Msg, rt (tcOf doc) = some m ∧ optStrTruthy m.DOI = true) := by
  constructor
  · intro hmsg m htc hq hdoi
    have hchosen : (scanOf rd doc).chosen = none :=
      scan_msg_none_chosen_none rd (tcOf doc) (candidatesOf doc) "" hmsg
    have hfb : fbOf rd rt doc =
        some (m, title_similarity (tcOf doc) (titleOfMsg m)) := by
      have h1 : optStrFalsy (none : Option String) = true := rfl
      simp [fbOf, hchosen, hq, hdoi, htc, h1]
    simp only [processDoc, hfb, hmsg, AUTO_ACCEPT_TITLE_SEARCH, Bool.false_eq_true,
      if_false]
    refine ⟨?_, ?_, ?_, ?_, ?_, ?_⟩ <;> trivial
  · intro hrev
    cases hmsg : (scanOf rd doc).chosen_msg with
    | some msg =>
      exfalso
      apply hrev
      cases hfb : fbOf rd rt doc with
      | none =>
        simp only [processDoc, hfb, hmsg, AUTO_ACCEPT_TITLE_SEARCH]
        cases hbib : to_bibtex_entry msg doc.filename
            (is_thesis (some msg) (tcOf doc) doc.textFirst none) with
        | ok v =>
          obtain ⟨r, hris⟩ := to_ris_ok_of_to_bibtex_ok hbib
          rw [hris]
        | error e => rfl
      | some p =>
        obtain ⟨m, sim⟩ := p
        simp only [processDoc, hfb, hmsg, AUTO_ACCEPT_TITLE_SEARCH, Bool.false_eq_true,
          if_false]
        cases hbib : to_bibtex_entry msg doc.filename
            (is_thesis (some msg) (tcOf doc) doc.textFirst none) with
        | ok v =>
          obtain ⟨r, hris⟩ := to_ris_ok_of_to_bibtex_ok hbib
          rw [hris]
        | error e => rfl
    | none =>
      cases hfb : fbOf rd rt doc with
      | none =>
        exfalso
        apply hrev
        simp only [processDoc, hfb, hmsg, AUTO_ACCEPT_TITLE_SEARCH]
      | some p =>
        obtain ⟨m, sim⟩ := p
        obtain ⟨hfalsy, htc, hq, hdoi, rfl⟩ := fbOf_some_inv hfb
        refine ⟨?_, htc, m, hq, hdoi⟩
        simp only [processDoc, hfb, hmsg, AUTO_ACCEPT_TITLE_SEARCH, Bool.false_eq_true,
          if_false]

theorem error_warning_ne_empty (e : String) :
    "Error constructing entry: " ++ e ≠ "" := by
  intro hcontra
  have hlen := congrArg String.length hcontra
  rw [String.length_append] at hlen
  have h26 : String.length "Error constructing entry: " = 26 := rfl
  rw [h26] at hlen
  simp at hlen

/-- C4: entry-construction failure is atomic and non-fatal: a document with
an accepted record whose BibTeX build fails gets status `error`; and every
`error` document has a non-empty warning, leaves both bibliography
collections untouched (the BibTeX-before-RIS append order cannot leak a
partial entry because a successful BibTeX build implies a successful RIS
build), still has its accepted record, and contributes exactly one report
row. -/
theorem entry_failure_isolated (rd rt : String → Option Msg) (doc : Document)
    (bib : List (List (String × String))) (ris : List String)
    (report : List ReportRow) (review : List ReviewRow) :
    ((∀ (msg : Msg) (e : String),
      (processDoc rd rt doc bib ris report review).accepted = some msg →
      to_bibtex_entry msg doc.filename
        (is_thesis (some msg) (tcOf doc) doc.textFirst none) = Except.error e →
      (processDoc rd rt doc bib ris report review).row.status = "error") ∧
     ((processDoc rd rt doc bib ris report review).row.status = "error" →
      (processDoc rd rt doc bib ris report review).row.warning ≠ "" ∧
      (processDoc rd rt doc bib ris report review).bib = bib ∧
      (processDoc rd rt doc bib ris report review).ris = ris ∧
      (processDoc rd rt doc bib ris report review).report =
        report ++ [(processDoc rd rt doc bib ris report review).row] ∧
      (processDoc rd rt doc bib ris report review).accepted.isSome = true)) := by
  cases hfb : fbOf rd rt doc with
  | none =>
    cases hmsg : (scanOf rd doc).chosen_msg with
    | none =>
      simp only [processDoc, hfb, hmsg, AUTO_ACCEPT_TITLE_SEARCH]
      exact ⟨(fun msg e hacc => by cases hacc), (fun herr => absurd herr (by decide))⟩
    | some msg0 =>
      simp only [processDoc, hfb, hmsg, AUTO_ACCEPT_TITLE_SEARCH]
      cases hbib : to_bibtex_entry msg0 doc.filename
          (is_thesis (some msg0) (tcOf doc) doc.textFirst none) with
      | ok v =>
        obtain ⟨r, hris⟩ := to_ris_ok_of_to_bibtex_ok hbib
        rw [hris]
        dsimp only
        refine ⟨(fun msg e hacc hfail => ?_), (fun herr => absurd herr (by decide))⟩
        cases hacc
        rw [hfail] at hbib
        cases hbib
      | error e0 =>
        dsimp only
        exact ⟨(fun msg e hacc hfail => rfl),
          (fun herr => ⟨error_warning_ne_empty e0, rfl, rfl, rfl, rfl⟩)⟩
  | some p =>
    obtain ⟨m, sim⟩ := p
    cases hmsg : (scanOf rd doc).chosen_msg with
    | none =>
      simp only [processDoc, hfb, hmsg, AUTO_ACCEPT_TITLE_SEARCH, Bool.false_eq_true,
        if_false]
      exact ⟨(fun msg e hacc => by cases hacc), (fun herr => absurd herr (by decide))⟩
    | some msg0 =>
      simp only [processDoc, hfb, hmsg, AUTO_ACCEPT_TITLE_SEARCH, Bool.false_eq_true,
        if_false]
      cases hbib : to_bibtex_entry msg0 doc.filename
          (is_thesis (some msg0) (tcOf doc) doc.textFirst none) with
      | ok v =>
        obtain ⟨r, hris⟩ := to_ris_ok_of_to_bibtex_ok hbib
        rw [hris]
        dsimp only
        refine ⟨(fun msg e hacc hfail => ?_), (fun herr => absurd herr (by decide))⟩
        cases hacc
        rw [hfail] at hbib
        cases hbib
      | error e0 =>
        dsimp only
        exact ⟨(fun msg e hacc hfail => rfl),
          (fun herr => ⟨error_warning_ne_empty e0, rfl, rfl, rfl, rfl⟩)⟩

theorem getLast?_cons_getD {α : Type} (a : α) (l : List α) :
    (a :: l).getLast? = some (l.getLast?.getD a) := by
  induction l generalizing a with
  | nil => rfl
  | cons b t ih =>
    rw [List.getLast?_cons_cons, ih b]
    simp [ih b]

/-- The scan's final `cr_title` is the title of the last message it
resolved (or the initial value when it resolved none). -/
theorem scan_cr_title (resolve : String → Option Msg) (titleCand : String)
    (cands : List (String × String)) (crInit : String) :
    (scan_candidates resolve titleCand cands crInit).cr_title =
    (match (scanResolved resolve titleCand cands).getLast? with
     | some m => titleOfMsg m
     | none => crInit) := by
  induction cands generalizing crInit with
  | nil => rfl
  | cons hd rest ih =>
    obtain ⟨d, t⟩ := hd
    cases hres : resolve d with
    | none =>
      simp only [scan_candidates, scanResolved, hres]
      exact ih crInit
    | some msg =>
      by_cases hhigh : t ∈ HIGH_CONFIDENCE_TAGS
      · simp [scan_candidates, scanResolved, hres, hhigh]
      · by_cases hsim : TITLE_SIM_THRESHOLD ≤ title_similarity titleCand (titleOfMsg msg)
        · simp [scan_candidates, scanResolved, hres, hhigh, hsim]
        · simp only [scan_candidates, scanResolved, hres, if_neg hhigh, if_neg hsim]
          rw [ih (titleOfMsg msg), getLast?_cons_getD]
          cases hlast : (scanResolved resolve titleCand rest).getLast? with
          | none => simp
          | some m2 => simp

/-- C10: the report row's resolved-title column holds the title of the most
recently resolved record of the document's processing — a record discarded
for low similarity or recorded by a rejected title fallback included — and
is empty exactly when no record was resolved or the last one had no title
(`titleOfMsg` is `""` then). -/
theorem resolved_title_column (rd rt : String → Option Msg) (doc : Document)
    (bib : List (List (String × String))) (ris : List String)
    (report : List ReportRow) (review : List ReviewRow) :
    (processDoc rd rt doc bib ris report review).row.cr_title =
    replaceNewlines (match (resolvedSeq rd rt doc).getLast? with
      | some m => titleOfMsg m
      | none => "") := by
  have hscan : (scanOf rd doc).cr_title =
      (match (scanResolved rd (tcOf doc) (candidatesOf doc)).getLast? with
       | some m => titleOfMsg m
       | none => "") :=
    scan_cr_title rd (tcOf doc) (candidatesOf doc) ""
  cases hfb : fbOf rd rt doc with
  | none =>
    have hseq : resolvedSeq rd rt doc = scanResolved rd (tcOf doc) (candidatesOf doc) := by
      simp [resolvedSeq, hfb]
    rw [hseq, ← hscan]
    cases hmsg : (scanOf rd doc).chosen_msg with
    | none =>
      simp only [processDoc, hfb, hmsg, AUTO_ACCEPT_TITLE_SEARCH]
    | some msg0 =>
      simp only [processDoc, hfb, hmsg, AUTO_ACCEPT_TITLE_SEARCH]
      cases hbib : to_bibtex_entry msg0 doc.filename
          (is_thesis (some msg0) (tcOf doc) doc.textFirst none) with
      | ok v =>
        obtain ⟨r, hris⟩ := to_ris_ok_of_to_bibtex_ok hbib
        rw [hris]
      | error e0 => rfl
  | some p =>
    obtain ⟨m, sim⟩ := p
    have hseq : (resolvedSeq rd rt doc).getLast? = some m := by
      simp [resolvedSeq, hfb]
    rw [hseq]
    cases hmsg : (scanOf rd doc).chosen_msg with
    | none =>
      simp only [processDoc, hfb, hmsg, AUTO_ACCEPT_TITLE_SEARCH, Bool.false_eq_true,
        if_false]
    | some msg0 =>
      simp only [processDoc, hfb, hmsg, AUTO_ACCEPT_TITLE_SEARCH, Bool.false_eq_true,
        if_false]
      cases hbib : to_bibtex_entry msg0 doc.filename
          (is_thesis (some msg0) (tcOf doc) doc.textFirst none) with
      | ok v =>
        obtain ⟨r, hris⟩ := to_ris_ok_of_to_bibtex_ok hbib
        rw [hris]
      | error e0 => rfl

/-- C3 (code bug): `is_thesis` does return `true` for a filename containing
"Dissertation", but `main` never passes the filename — for a document whose
filename contains "Dissertation" and whose texts yield no identifier
candidate and no title line, the pipeline's thesis flag is false (empty
`type_hint`), contradicting the spec. -/
theorem thesis_filename_ignored :
    is_thesis none "" "" (some "My_Dissertation.pdf") = true ∧
    (processDoc (fun _ => none) (fun _ => none)
      ⟨"My_Dissertation.pdf", "", ""⟩ [] [] [] []).row.type_hint = "" := by
  constructor
  · decide
  · decide

/-- C8 (code bug): the `skip_words` entries `Theses` and `Dissertations`
are compared capitalized against a lowercased line, so a line starting with
"Theses" is never skipped: this first line is returned as the title
candidate even though the spec says it must be skipped (the next long line
would then be chosen). -/
theorem title_skip_words_case_dead :
    extract_title_candidate_from_text
      "Theses and Dissertations Collection 2020\nA Study of Something Quite Long Indeed"
      = "Theses and Dissertations Collection 2020" := by decide

/-- C5: in the extractor's output, candidates appear in trust order —
first-pages-labeled before first-pages-unlabeled before anywhere-labeled
before anywhere-unlabeled: an earlier position never has a lower-trust
(higher-rank) tag than a later one. -/
theorem candidate_tag_order (full first : String) (i j : Nat)
    (hi : i < (find_doi_candidates_in_pdf_text full first).length)
    (hj : j < (find_doi_candidates_in_pdf_text full first).length)
    (hij : i < j) :
    tagRank ((find_doi_candidates_in_pdf_text full first).get ⟨i, hi⟩).2 ≤
    tagRank ((find_doi_candidates_in_pdf_text full first).get ⟨j, hj⟩).2 := by
  have h := find_doi_pairwise_rank full first
  rw [List.pairwise_iff_get] at h
  exact h ⟨i, hi⟩ ⟨j, hj⟩ hij

theorem candidate_tag_order_witness :
    tagRank ((find_doi_candidates_in_pdf_text "doi:10.3333/ccc plus 10.4444/ddd"
      "DOI: 10.1111/aaa and 10.2222/bbb").get ⟨0, by decide⟩).2 ≤
    tagRank ((find_doi_candidates_in_pdf_text "doi:10.3333/ccc plus 10.4444/ddd"
      "DOI: 10.1111/aaa and 10.2222/bbb").get ⟨3, by decide⟩).2 :=
  candidate_tag_order "doi:10.3333/ccc plus 10.4444/ddd"
    "DOI: 10.1111/aaa and 10.2222/bbb" 0 3 (by decide) (by decide) (by decide)

/-- C6: the candidate list is free of case-insensitive duplicate identifier
values, and each retained candidate is the first occurrence of its
lowercased value in the raw (pre-dedup) extraction order, which therefore
determines both the retained spelling and the retained provenance tag. -/
theorem candidate_dedup_first_wins (full first : String) :
    (find_doi_candidates_in_pdf_text full first).Pairwise
      (fun a b => pyLower a.1 ≠ pyLower b.1) ∧
    ∀ c ∈ find_doi_candidates_in_pdf_text full first,
      (rawCandidates full first).find? (fun p => pyLower p.1 == pyLower c.1) = some c :=
  ⟨dedup_pairwise [] _, fun _ hc => dedup_find hc⟩

theorem candidate_dedup_first_wins_witness :
    (rawCandidates "DOI: 10.1111/AAA" "doi: 10.1111/aaa").find?
      (fun p => pyLower p.1 == pyLower ("10.1111/aaa", "firstpages_label").1) =
      some ("10.1111/aaa", "firstpages_label") :=
  (candidate_dedup_first_wins "DOI: 10.1111/AAA" "doi: 10.1111/aaa").2
    ("10.1111/aaa", "firstpages_label") (by decide)

/-- C7 counterexample: a labeled match keeps a trailing closing parenthesis
— only `.`, `,` and `;` are in the `rstrip` set — so the claim that `)` is
stripped fails on this input. -/
theorem closing_paren_not_stripped :
    (find_doi_candidates_in_pdf_text "doi: 10.1234/abc)" "").head? =
      some ("10.1234/abc)", "anywhere_label") ∧
    endsIn "10.1234/abc)" [')'] = true := by decide

/-- C7 (amended): every candidate has its trailing periods, commas and
semicolons stripped (it never ends in one of them); closing parentheses are
not stripped. -/
theorem candidate_no_trailing_punct (full first : String) (c : String × String)
    (hc : c ∈ find_doi_candidates_in_pdf_text full first) :
    endsIn c.1 ['.', ',', ';'] = false := by
  obtain ⟨m, hm⟩ := mem_find_doi_shape hc
  rw [hm]
  exact pyRstripPunct_no_trailing (pyStrip m)

theorem candidate_no_trailing_punct_witness :
    endsIn ("10.1234/abc", "anywhere_any").1 ['.', ',', ';'] = false :=
  candidate_no_trailing_punct "see 10.1234/abc. end" ""
    ("10.1234/abc", "anywhere_any") (by decide)

theorem flmRowStep_fst (i : Nat) (f : Nat → Nat) (st : (Nat → Nat) × FlmBest) (j x : Nat) :
    (flmRowStep i f st j).1 x =
      if x = j then (if j = 0 then 0 else f (j - 1)) + 1 else st.1 x := rfl

theorem flmRowStep_snd (i : Nat) (f : Nat → Nat) (st : (Nat → Nat) × FlmBest) (j : Nat) :
    (flmRowStep i f st j).2 =
      if st.2.bestsize < (if j = 0 then 0 else f (j - 1)) + 1 then
        FlmBest.mk (i + 1 - ((if j = 0 then 0 else f (j - 1)) + 1))
          (j + 1 - ((if j = 0 then 0 else f (j - 1)) + 1))
          ((if j = 0 then 0 else f (j - 1)) + 1)
      else st.2 := rfl

theorem flmRow_fold_inv (i alo blo bhi p : Nat) (prevF : Nat → Nat)
    (hip : i = alo + p) (hprev : J2Bound blo p prevF) :
    ∀ (js : List Nat) (st : (Nat → Nat) × FlmBest),
      (∀ j ∈ js, blo ≤ j ∧ j < bhi) →
      J2Bound blo (p + 1) st.1 →
      BestIn alo (alo + p + 1) blo bhi st.2 →
      J2Bound blo (p + 1) (js.foldl (flmRowStep i prevF) st).1 ∧
      BestIn alo (alo + p + 1) blo bhi (js.foldl (flmRowStep i prevF) st).2 := by
  intro js
  induction js with
  | nil => exact fun st _ h1 h2 => ⟨h1, h2⟩
  | cons j js ih =>
    intro st hjs h1 h2
    obtain ⟨hbloj, hjbhi⟩ := hjs j (List.mem_cons_self j js)
    have hk1 : (if j = 0 then 0 else prevF (j - 1)) + 1 ≤ p + 1 := by
      by_cases hj0 : j = 0
      · rw [if_pos hj0]; omega
      · rw [if_neg hj0]; have := (hprev (j - 1)).1; omega
    have hk2 : blo + ((if j = 0 then 0 else prevF (j - 1)) + 1) ≤ j + 1 := by
      by_cases hj0 : j = 0
      · rw [if_pos hj0]; omega
      · rw [if_neg hj0]
        by_cases hv : 1 ≤ prevF (j - 1)
        · have := ((hprev (j - 1)).2 hv).2; omega
        · omega
    rw [List.foldl_cons]
    refine ih _ (fun x hx => hjs x (List.mem_cons_of_mem _ hx)) ?_ ?_
    · intro x
      rw [flmRowStep_fst]
      by_cases hx : x = j
      · rw [if_pos hx]; subst hx; exact ⟨hk1, fun _ => ⟨hbloj, hk2⟩⟩
      · rw [if_neg hx]; exact h1 x
    · rw [flmRowStep_snd]
      by_cases hlt : st.2.bestsize < (if j = 0 then 0 else prevF (j - 1)) + 1
      · rw [if_pos hlt]
        simp only [BestIn]
        omega
      · rw [if_neg hlt]; exact h2

theorem flmRow_inv (i alo blo bhi p : Nat) (js : List Nat) (prevF : Nat → Nat)
    (best : FlmBest) (hip : i = alo + p) (hprev : J2Bound blo p prevF)
    (hbest : BestIn alo (alo + p) blo bhi best) :
    J2Bound blo (p + 1) (flmRow i blo bhi js prevF best).1 ∧
    BestIn alo (alo + p + 1) blo bhi (flmRow i blo bhi js prevF best).2 := by
  rw [flmRow]
  refine flmRow_fold_inv i alo blo bhi p prevF hip hprev _ _ ?_ ?_ ?_
  · intro j hj
    have h1 := List.mem_filter.1 hj
    refine ⟨of_decide_eq_true h1.2, ?_⟩
    have h3 := List.mem_takeWhile_imp h1.1
    simp only [decide_eq_true_eq] at h3
    exact h3
  · intro x
    exact ⟨Nat.zero_le _, fun h => absurd (show (1 : Nat) ≤ 0 from h) (by omega)⟩
  · simp only [BestIn] at hbest ⊢
    omega

theorem flmLoop_inv (a b : List Char) (alo blo bhi : Nat) (hblo : blo ≤ bhi) :
    ∀ cnt : Nat,
      J2Bound blo cnt ((List.range' alo cnt).foldl
        (fun st i => flmRow i blo bhi (b2j b (a.getD i ' ')) st.1 st.2)
        (fun _ => 0, FlmBest.mk alo blo 0)).1 ∧
      BestIn alo (alo + cnt) blo bhi ((List.range' alo cnt).foldl
        (fun st i => flmRow i blo bhi (b2j b (a.getD i ' ')) st.1 st.2)
        (fun _ => 0, FlmBest.mk alo blo 0)).2 := by
  intro cnt
  induction cnt with
  | zero =>
    constructor
    · intro x
      exact ⟨Nat.zero_le _, fun h => absurd (show (1 : Nat) ≤ 0 from h) (by omega)⟩
    · simp only [List.range', List.foldl_nil, BestIn]
      omega
  | succ n ihn =>
    rw [List.range'_concat, List.foldl_append, List.foldl_cons, List.foldl_nil]
    simp only [one_mul]
    exact flmRow_inv (alo + n) alo blo bhi n _ _ _ rfl ihn.1 ihn.2

theorem flmLoop_bounds (a b : List Char) (alo ahi blo bhi : Nat)
    (ha : alo ≤ ahi) (hb : blo ≤ bhi) :
    BestIn alo ahi blo bhi (flmLoop a b alo ahi blo bhi) := by
  have h := (flmLoop_inv a b alo blo bhi hb (ahi - alo)).2
  have he : alo + (ahi - alo) = ahi := by omega
  rw [he] at h
  exact h

theorem extendBack_spec (a b : List Char) (alo blo : Nat) :
    ∀ (fuel besti bestj size : Nat), alo ≤ besti → blo ≤ bestj →
      alo ≤ (extendBack a b alo blo fuel besti bestj size).besti ∧
      blo ≤ (extendBack a b alo blo fuel besti bestj size).bestj ∧
      (extendBack a b alo blo fuel besti bestj size).besti +
        (extendBack a b alo blo fuel besti bestj size).bestsize = besti + size ∧
      (extendBack a b alo blo fuel besti bestj size).bestj +
        (extendBack a b alo blo fuel besti bestj size).bestsize = bestj + size := by
  intro fuel
  induction fuel with
  | zero => exact fun besti bestj size h1 h2 => ⟨h1, h2, rfl, rfl⟩
  | succ n ih =>
    intro besti bestj size h1 h2
    simp only [extendBack]
    by_cases hc : alo < besti ∧ blo < bestj ∧
        a.getD (besti - 1) ' ' = b.getD (bestj - 1) ' '
    · rw [if_pos hc]
      obtain ⟨hab, hbb, _⟩ := hc
      obtain ⟨c1, c2, c3, c4⟩ := ih (besti - 1) (bestj - 1) (size + 1) (by omega) (by omega)
      exact ⟨c1, c2, by omega, by omega⟩
    · rw [if_neg hc]
      exact ⟨h1, h2, rfl, rfl⟩

theorem extendFwd_le (a b : List Char) (ahi bhi : Nat) :
    ∀ (fuel besti bestj size : Nat),
      besti + size ≤ ahi → bestj + size ≤ bhi →
      besti + extendFwd a b ahi bhi fuel besti bestj size ≤ ahi ∧
      bestj + extendFwd a b ahi bhi fuel besti bestj size ≤ bhi := by
  intro fuel
  induction fuel with
  | zero => exact fun _ _ _ h1 h2 => ⟨h1, h2⟩
  | succ n ih =>
    intro besti bestj size h1 h2
    simp only [extendFwd]
    by_cases hc : besti + size < ahi ∧ bestj + size < bhi ∧
        a.getD (besti + size) ' ' = b.getD (bestj + size) ' '
    · rw [if_pos hc]
      exact ih besti bestj (size + 1) (by omega) (by omega)
    · rw [if_neg hc]
      exact ⟨h1, h2⟩

theorem find_longest_match_bounds (a b : List Char) (alo ahi blo bhi : Nat)
    (ha : alo ≤ ahi) (hb : blo ≤ bhi) :
    BestIn alo ahi blo bhi (find_longest_match a b alo ahi blo bhi) := by
  have h0 := flmLoop_bounds a b alo ahi blo bhi ha hb
  simp only [BestIn] at h0 ⊢
  obtain ⟨h1, h2, h3, h4⟩ := h0
  simp only [find_longest_match]
  obtain ⟨e1, e2, e3, e4⟩ := extendBack_spec a b alo blo
    (flmLoop a b alo ahi blo bhi).besti (flmLoop a b alo ahi blo bhi).besti
    (flmLoop a b alo ahi blo bhi).bestj (flmLoop a b alo ahi blo bhi).bestsize h1 h3
  obtain ⟨f1, f2⟩ := extendFwd_le a b ahi bhi ahi
    (extendBack a b alo blo (flmLoop a b alo ahi blo bhi).besti
      (flmLoop a b alo ahi blo bhi).besti (flmLoop a b alo ahi blo bhi).bestj
      (flmLoop a b alo ahi blo bhi).bestsize).besti
    (extendBack a b alo blo (flmLoop a b alo ahi blo bhi).besti
      (flmLoop a b alo ahi blo bhi).besti (flmLoop a b alo ahi blo bhi).bestj
      (flmLoop a b alo ahi blo bhi).bestsize).bestj
    (extendBack a b alo blo (flmLoop a b alo ahi blo bhi).besti
      (flmLoop a b alo ahi blo bhi).besti (flmLoop a b alo ahi blo bhi).bestj
      (flmLoop a b alo ahi blo bhi).bestsize).bestsize
    (by omega) (by omega)
  exact ⟨e1, f1, e2, f2⟩

theorem matchingBlocksAux_sum_le (a b : List Char) :
    ∀ (fuel alo ahi blo bhi : Nat), alo ≤ ahi → blo ≤ bhi →
      ((matchingBlocksAux a b fuel alo ahi blo bhi).map (fun t => t.2.2)).sum + alo ≤ ahi ∧
      ((matchingBlocksAux a b fuel alo ahi blo bhi).map (fun t => t.2.2)).sum + blo ≤ bhi := by
  intro fuel
  induction fuel with
  | zero =>
    intro alo ahi blo bhi ha hb
    simp only [matchingBlocksAux, List.map_nil, List.sum_nil]
    omega
  | succ n ih =>
    intro alo ahi blo bhi ha hb
    have hm := find_longest_match_bounds a b alo ahi blo bhi ha hb
    simp only [BestIn] at hm
    obtain ⟨b1, b2, b3, b4⟩ := hm
    simp only [matchingBlocksAux]
    by_cases h0 : (find_longest_match a b alo ahi blo bhi).bestsize = 0
    · rw [if_pos h0]
      simp only [List.map_nil, List.sum_nil]
      omega
    · rw [if_neg h0]
      by_cases hL : alo < (find_longest_match a b alo ahi blo bhi).besti ∧
          blo < (find_longest_match a b alo ahi blo bhi).bestj
      · have hiL := ih alo (find_longest_match a b alo ahi blo bhi).besti blo
          (find_longest_match a b alo ahi blo bhi).bestj (le_of_lt hL.1) (le_of_lt hL.2)
        rw [if_pos hL]
        by_cases hR : (find_longest_match a b alo ahi blo bhi).besti +
            (find_longest_match a b alo ahi blo bhi).bestsize < ahi ∧
            (find_longest_match a b alo ahi blo bhi).bestj +
            (find_longest_match a b alo ahi blo bhi).bestsize < bhi
        · have hiR := ih ((find_longest_match a b alo ahi blo bhi).besti +
              (find_longest_match a b alo ahi blo bhi).bestsize) ahi
              ((find_longest_match a b alo ahi blo bhi).bestj +
              (find_longest_match a b alo ahi blo bhi).bestsize) bhi
              (le_of_lt hR.1) (le_of_lt hR.2)
          rw [if_pos hR]
          simp only [List.map_append, List.sum_append, List.map_cons, List.sum_cons,
            List.map_nil, List.sum_nil]
          omega
        · rw [if_neg hR]
          simp only [List.map_append, List.sum_append, List.map_cons, List.sum_cons,
            List.map_nil, List.sum_nil]
          omega
      · rw [if_neg hL]
        by_cases hR : (find_longest_match a b alo ahi blo bhi).besti +
            (find_longest_match a b alo ahi blo bhi).bestsize < ahi ∧
            (find_longest_match a b alo ahi blo bhi).bestj +
            (find_longest_match a b alo ahi blo bhi).bestsize < bhi
        · have hiR := ih ((find_longest_match a b alo ahi blo bhi).besti +
              (find_longest_match a b alo ahi blo bhi).bestsize) ahi
              ((find_longest_match a b alo ahi blo bhi).bestj +
              (find_longest_match a b alo ahi blo bhi).bestsize) bhi
              (le_of_lt hR.1) (le_of_lt hR.2)
          rw [if_pos hR]
          simp only [List.map_append, List.sum_append, List.map_cons, List.sum_cons,
            List.map_nil, List.sum_nil, List.nil_append]
          omega
        · rw [if_neg hR]
          simp only [List.map_append, List.sum_append, List.map_cons, List.sum_cons,
            List.map_nil, List.sum_nil, List.nil_append]
          omega

theorem collapseBlocks_sum :
    ∀ (l : List (Nat × Nat × Nat)) (i j k : Nat),
      ((collapseBlocks (i, j, k) l).map (fun t => t.2.2)).sum =
        k + (l.map (fun t => t.2.2)).sum := by
  intro l
  induction l with
  | nil =>
    intro i j k
    simp only [collapseBlocks]
    by_cases hk : k ≠ 0
    · rw [if_pos hk]; simp
    · rw [if_neg hk]
      rw [ne_eq, not_not] at hk
      subst hk
      simp
  | cons t rest ih =>
    obtain ⟨i2, j2, k2⟩ := t
    intro i j k
    simp only [collapseBlocks]
    by_cases hadj : i + k = i2 ∧ j + k = j2
    · rw [if_pos hadj, ih]
      simp only [List.map_cons, List.sum_cons]
      omega
    · rw [if_neg hadj]
      by_cases hk : k ≠ 0
      · rw [if_pos hk]
        simp only [List.map_append, List.sum_append, List.map_cons, List.sum_cons,
          List.map_nil, List.sum_nil, ih]
        omega
      · rw [if_neg hk]
        rw [ne_eq, not_not] at hk
        subst hk
        simp only [List.nil_append, ih, List.map_cons, List.sum_cons]
        omega

theorem smMatched_le (a b : List Char) :
    smMatched a b ≤ a.length ∧ smMatched a b ≤ b.length := by
  have h := matchingBlocksAux_sum_le a b (a.length + b.length + 1) 0 a.length 0 b.length
    (Nat.zero_le _) (Nat.zero_le _)
  rw [smMatched, get_matching_blocks]
  simp only [List.map_append, List.sum_append, List.map_cons, List.sum_cons,
    List.map_nil, List.sum_nil, collapseBlocks_sum]
  omega

theorem ratio_q_bounds (a b : List Char) : 0 ≤ ratio_q a b ∧ ratio_q a b ≤ 1 := by
  rw [ratio_q]
  by_cases h : a.length + b.length ≠ 0
  · rw [if_pos h]
    have hs := smMatched_le a b
    rw [Rat.mkRat_eq_div]
    constructor
    · apply div_nonneg
      · positivity
      · positivity
    · rw [div_le_one (by exact_mod_cast Nat.pos_of_ne_zero h)]
      exact_mod_cast (by omega : 2 * smMatched a b ≤ a.length + b.length)
  · rw [if_neg h]
    norm_num

theorem mem_b2j (s : List Char) (c : Char) (j : Nat) (h : j ∈ b2j s c) :
    s.getD j ' ' = c ∧ j < s.length ∧ isPopular s c = false := by
  rw [b2j] at h
  by_cases hp : isPopular s c
  · rw [if_pos hp] at h
    exact absurd h (List.not_mem_nil j)
  · rw [if_neg hp] at h
    rw [positionsOf] at h
    have h1 := List.mem_filter.1 h
    exact ⟨of_decide_eq_true h1.2, List.mem_range.1 h1.1, by simpa using hp⟩

theorem self_mem_b2j (s : List Char) (j : Nat) (hj : j < s.length)
    (hp : isPopular s (s.getD j ' ') = false) : j ∈ b2j s (s.getD j ' ') := by
  rw [b2j, if_neg (by simp only [hp]; exact Bool.false_ne_true), positionsOf]
  exact List.mem_filter.2 ⟨List.mem_range.2 hj, by simp⟩

theorem b2j_sorted (s : List Char) (c : Char) :
    (b2j s c).Pairwise (fun x y => x < y) := by
  rw [b2j]
  by_cases hp : isPopular s c
  · rw [if_pos hp]
    exact List.Pairwise.nil
  · rw [if_neg hp]
    rw [positionsOf]
    exact List.Pairwise.sublist (List.filter_sublist _) (List.pairwise_lt_range _)

theorem diagChain_popular (s : List Char) (m : Nat)
    (h : isPopular s (s.getD m ' ') = true) : diagChain s m = 0 := by
  cases m with
  | zero => simp only [diagChain]; rw [if_pos h]
  | succ r => simp only [diagChain]; rw [if_pos h]

theorem diagChain_ge (s : List Char) :
    ∀ (v i : Nat), v ≤ i + 1 →
      (∀ t, t < v → isPopular s (s.getD (i - t) ' ') = false) →
      v ≤ diagChain s i := by
  intro v
  induction v with
  | zero => exact fun i _ _ => Nat.zero_le _
  | succ w ih =>
    intro i hvi hact
    cases i with
    | zero =>
      have h0 := hact 0 (by omega)
      simp only [Nat.sub_zero] at h0
      simp only [diagChain]
      rw [if_neg (by simp only [h0]; exact Bool.false_ne_true)]
      omega
    | succ m =>
      have h0 := hact 0 (by omega)
      simp only [Nat.sub_zero] at h0
      simp only [diagChain]
      rw [if_neg (by simp only [h0]; exact Bool.false_ne_true)]
      have hw : w ≤ diagChain s m := by
        refine ih m (by omega) ?_
        intro t ht
        have h1 := hact (t + 1) (by omega)
        have e : m + 1 - (t + 1) = m - t := by omega
        rw [e] at h1
        exact h1
      omega

theorem run_le_diagChain_left (s : List Char) (i j v : Nat) (h : RunAt s i j v) :
    v ≤ diagChain s i :=
  diagChain_ge s v i h.1 (fun t ht => (h.2.2 t ht).2)

theorem run_le_diagChain_right (s : List Char) (i j v : Nat) (h : RunAt s i j v) :
    v ≤ diagChain s j := by
  refine diagChain_ge s v j h.2.1 (fun t ht => ?_)
  obtain ⟨hc, hp⟩ := h.2.2 t ht
  rw [← hc]
  exact hp

theorem diagChain_le_step (s : List Char) (i : Nat) (prevF : Nat → Nat)
    (hpop : isPopular s (s.getD i ' ') = false)
    (hprevDiag : 1 ≤ i → diagChain s (i - 1) ≤ prevF (i - 1)) :
    diagChain s i ≤ (if i = 0 then 0 else prevF (i - 1)) + 1 := by
  cases i with
  | zero =>
    rw [if_pos rfl]
    simp only [diagChain]
    rw [if_neg (by simp only [hpop]; exact Bool.false_ne_true)]
  | succ m =>
    rw [if_neg (by omega : ¬(m + 1 = 0))]
    simp only [diagChain]
    rw [if_neg (by simp only [hpop]; exact Bool.false_ne_true)]
    have hd := hprevDiag (by omega)
    simp only [Nat.add_sub_cancel] at hd ⊢
    omega

theorem selfRow_fold (s : List Char) (n i : Nat) (prevF : Nat → Nat)
    (hprev : ∀ j, 1 ≤ prevF j → RunAt s (i - 1) j (prevF j))
    (hprev0 : i = 0 → ∀ j, prevF j = 0)
    (hprevDiag : 1 ≤ i → diagChain s (i - 1) ≤ prevF (i - 1)) :
    ∀ (Q : List Nat) (st : (Nat → Nat) × FlmBest),
      (∀ j ∈ Q, s.getD j ' ' = s.getD i ' ' ∧
        isPopular s (s.getD i ' ') = false ∧ j < n) →
      Q.Pairwise (fun x y => x < y) →
      st.2.besti = st.2.bestj →
      (∀ r, r < i → diagChain s r ≤ st.2.bestsize) →
      (i ∈ Q ∨ diagChain s i ≤ st.2.bestsize ∨ isPopular s (s.getD i ' ') = true) →
      (∀ j, 1 ≤ st.1 j → RunAt s i j (st.1 j)) →
      (i ∈ Q ∨ diagChain s i ≤ st.1 i ∨ isPopular s (s.getD i ' ') = true) →
      (Q.foldl (flmRowStep i prevF) st).2.besti =
        (Q.foldl (flmRowStep i prevF) st).2.bestj ∧
      (∀ r, r < i → diagChain s r ≤ (Q.foldl (flmRowStep i prevF) st).2.bestsize) ∧
      (diagChain s i ≤ (Q.foldl (flmRowStep i prevF) st).2.bestsize ∨
        isPopular s (s.getD i ' ') = true) ∧
      (∀ j, 1 ≤ (Q.foldl (flmRowStep i prevF) st).1 j →
        RunAt s i j ((Q.foldl (flmRowStep i prevF) st).1 j)) ∧
      (diagChain s i ≤ (Q.foldl (flmRowStep i prevF) st).1 i ∨
        isPopular s (s.getD i ' ') = true) := by
  intro Q
  induction Q with
  | nil =>
    intro st hmem hpw hC1 hC2 hdich hrunm hdichm
    refine ⟨hC1, hC2, ?_, hrunm, ?_⟩
    · rcases hdich with h | h | h
      · exact absurd h (List.not_mem_nil i)
      · exact Or.inl h
      · exact Or.inr h
    · rcases hdichm with h | h | h
      · exact absurd h (List.not_mem_nil i)
      · exact Or.inl h
      · exact Or.inr h
  | cons j Q' ih =>
    intro st hmem hpw hC1 hC2 hdich hrunm hdichm
    obtain ⟨hcj, hpop, hjn⟩ := hmem j (List.mem_cons_self j Q')
    have hpwall := (List.pairwise_cons.1 hpw).1
    have hpw' := (List.pairwise_cons.1 hpw).2
    -- the chain value recorded at column j describes a run ending at (i, j)
    have hrun : RunAt s i j ((if j = 0 then 0 else prevF (j - 1)) + 1) := by
      by_cases hj0 : j = 0
      · rw [if_pos hj0]
        subst hj0
        refine ⟨by omega, by omega, ?_⟩
        intro t ht
        have ht0 : t = 0 := by omega
        subst ht0
        simp only [Nat.sub_zero]
        exact ⟨hcj.symm, hpop⟩
      · rw [if_neg hj0]
        by_cases hv : 1 ≤ prevF (j - 1)
        · have hi1 : 1 ≤ i := by
            by_contra hcon
            have h0 := hprev0 (by omega) (j - 1)
            omega
          obtain ⟨hR1, hR2, hR3⟩ := hprev (j - 1) hv
          refine ⟨by omega, by omega, ?_⟩
          intro t ht
          rcases Nat.eq_zero_or_pos t with ht0 | htp
          · subst ht0
            simp only [Nat.sub_zero]
            exact ⟨hcj.symm, hpop⟩
          · obtain ⟨hc', hp'⟩ := hR3 (t - 1) (by omega)
            have e1 : i - 1 - (t - 1) = i - t := by omega
            have e2 : j - 1 - (t - 1) = j - t := by omega
            rw [e1] at hc' hp'
            rw [e2] at hc'
            exact ⟨hc', hp'⟩
        · have hv0 : prevF (j - 1) = 0 := by omega
          rw [hv0]
          refine ⟨by omega, by omega, ?_⟩
          intro t ht
          have ht0 : t = 0 := by omega
          subst ht0
          simp only [Nat.sub_zero]
          exact ⟨hcj.symm, hpop⟩
    have hki := run_le_diagChain_left s i j _ hrun
    have hkdj := run_le_diagChain_right s i j _ hrun
    -- a best update can only happen on the diagonal
    have hji : st.2.bestsize < (if j = 0 then 0 else prevF (j - 1)) + 1 → j = i := by
      intro hup
      rcases Nat.lt_trichotomy j i with hlt | heq | hgt
      · exfalso
        have hd2 := hC2 j hlt
        omega
      · exact heq
      · exfalso
        rcases hdich with hiQ | hle | hpopT
        · rcases List.mem_cons.1 hiQ with hij | hiQ'
          · omega
          · have := hpwall i hiQ'
            omega
        · omega
        · rw [hpop] at hpopT
          exact Bool.noConfusion hpopT
    have hC1' : (flmRowStep i prevF st j).2.besti = (flmRowStep i prevF st j).2.bestj := by
      rw [flmRowStep_snd]
      by_cases hup : st.2.bestsize < (if j = 0 then 0 else prevF (j - 1)) + 1
      · rw [if_pos hup, hji hup]
      · rw [if_neg hup]
        exact hC1
    have hmono : st.2.bestsize ≤ (flmRowStep i prevF st j).2.bestsize := by
      rw [flmRowStep_snd]
      by_cases hup : st.2.bestsize < (if j = 0 then 0 else prevF (j - 1)) + 1
      · rw [if_pos hup]
        dsimp only
        omega
      · rw [if_neg hup]
    have hC2' : ∀ r, r < i → diagChain s r ≤ (flmRowStep i prevF st j).2.bestsize :=
      fun r hr => le_trans (hC2 r hr) hmono
    have hdiagk : j = i → diagChain s i ≤ (flmRowStep i prevF st j).2.bestsize := by
      intro hjieq
      have hd := diagChain_le_step s i prevF hpop hprevDiag
      rw [flmRowStep_snd]
      by_cases hup : st.2.bestsize < (if j = 0 then 0 else prevF (j - 1)) + 1
      · rw [if_pos hup]
        dsimp only
        rw [hjieq]
        exact hd
      · rw [if_neg hup]
        rw [hjieq] at hup
        omega
    have hdich' : i ∈ Q' ∨ diagChain s i ≤ (flmRowStep i prevF st j).2.bestsize ∨
        isPopular s (s.getD i ' ') = true := by
      by_cases hjieq : j = i
      · exact Or.inr (Or.inl (hdiagk hjieq))
      · rcases hdich with hiQ | hle | hpopT
        · rcases List.mem_cons.1 hiQ with h1 | h2
          · exact absurd h1.symm hjieq
          · exact Or.inl h2
        · exact Or.inr (Or.inl (le_trans hle hmono))
        · exact Or.inr (Or.inr hpopT)
    have hrunm' : ∀ x, 1 ≤ (flmRowStep i prevF st j).1 x →
        RunAt s i x ((flmRowStep i prevF st j).1 x) := by
      intro x
      rw [flmRowStep_fst]
      by_cases hxj : x = j
      · rw [if_pos hxj]
        subst hxj
        exact fun _ => hrun
      · rw [if_neg hxj]
        exact hrunm x
    have hdichm' : i ∈ Q' ∨ diagChain s i ≤ (flmRowStep i prevF st j).1 i ∨
        isPopular s (s.getD i ' ') = true := by
      rw [flmRowStep_fst]
      by_cases hij : i = j
      · rw [if_pos hij]
        refine Or.inr (Or.inl ?_)
        have hd := diagChain_le_step s i prevF hpop hprevDiag
        rw [← hij]
        exact hd
      · rw [if_neg hij]
        rcases hdichm with hiQ | hle | hpopT
        · rcases List.mem_cons.1 hiQ with h1 | h2
          · exact absurd h1 hij
          · exact Or.inl h2
        · exact Or.inr (Or.inl hle)
        · exact Or.inr (Or.inr hpopT)
    rw [List.foldl_cons]
    exact ih (flmRowStep i prevF st j)
      (fun x hx => hmem x (List.mem_cons_of_mem _ hx))
      hpw' hC1' hC2' hdich' hrunm' hdichm'

theorem selfLoopState_succ (s : List Char) (n cnt : Nat) :
    selfLoopState s n (cnt + 1) =
      flmRow cnt 0 n (b2j s (s.getD cnt ' '))
        (selfLoopState s n cnt).1 (selfLoopState s n cnt).2 := by
  rw [selfLoopState, selfLoopState, List.range'_concat, List.foldl_append,
    List.foldl_cons, List.foldl_nil]
  simp only [one_mul, Nat.zero_add]

theorem flmLoop_eq_selfLoopState (s : List Char) (n : Nat) :
    flmLoop s s 0 n 0 n = (selfLoopState s n n).2 := by
  rw [flmLoop, selfLoopState]
  norm_num

theorem takeWhile_all {α : Type} (p : α → Bool) :
    ∀ l : List α, (∀ x ∈ l, p x = true) → l.takeWhile p = l := by
  intro l
  induction l with
  | nil => intro _; rfl
  | cons x xs ih =>
    intro h
    rw [List.takeWhile_cons, if_pos (h x (List.mem_cons_self x xs))]
    rw [ih (fun y hy => h y (List.mem_cons_of_mem _ hy))]

theorem flmRow_self_eq (s : List Char) (n i : Nat) (hn : n = s.length)
    (c : Char) (f : Nat → Nat) (best : FlmBest) :
    flmRow i 0 n (b2j s c) f best =
      (b2j s c).foldl (flmRowStep i f) (fun _ => 0, best) := by
  rw [flmRow]
  have h1 : (b2j s c).takeWhile (fun j => decide (j < n)) = b2j s c := by
    apply takeWhile_all
    intro x hx
    have := (mem_b2j s c x hx).2.1
    simp only [decide_eq_true_eq]
    omega
  rw [h1]
  have h2 : (b2j s c).filter (fun j => decide (0 ≤ j)) = b2j s c := by
    apply List.filter_eq_self.2
    intro x _
    simp
  rw [h2]

theorem selfLoop_inv (s : List Char) (n : Nat) (hn : n = s.length) :
    ∀ cnt, cnt ≤ n →
      (selfLoopState s n cnt).2.besti = (selfLoopState s n cnt).2.bestj ∧
      (∀ r, r < cnt → diagChain s r ≤ (selfLoopState s n cnt).2.bestsize) ∧
      (∀ j, 1 ≤ (selfLoopState s n cnt).1 j →
        RunAt s (cnt - 1) j ((selfLoopState s n cnt).1 j)) ∧
      (cnt = 0 → ∀ j, (selfLoopState s n cnt).1 j = 0) ∧
      (1 ≤ cnt → diagChain s (cnt - 1) ≤ (selfLoopState s n cnt).1 (cnt - 1) ∨
        isPopular s (s.getD (cnt - 1) ' ') = true) := by
  intro cnt
  induction cnt with
  | zero =>
    intro _
    refine ⟨rfl, ?_, ?_, ?_, ?_⟩
    · intro r hr
      omega
    · intro j hj
      exact absurd (show (1 : Nat) ≤ 0 from hj) (by omega)
    · intro _ j
      rfl
    · intro h
      omega
  | succ cnt ih =>
    intro hcn
    obtain ⟨h1, h2, h3, h4, h5⟩ := ih (by omega)
    rw [selfLoopState_succ]
    by_cases hpop : isPopular s (s.getD cnt ' ') = true
    · -- popular character: the chain is empty, the row only resets the map
      have hb2j : b2j s (s.getD cnt ' ') = [] := by
        rw [b2j, if_pos hpop]
      rw [hb2j, flmRow]
      simp only [List.takeWhile_nil, List.filter_nil, List.foldl_nil]
      refine ⟨h1, ?_, ?_, ?_, ?_⟩
      · intro r hr
        rcases Nat.lt_or_ge r cnt with hlt | hge
        · exact h2 r hlt
        · have he : r = cnt := by omega
          rw [he, diagChain_popular s cnt hpop]
          exact Nat.zero_le _
      · intro j hj
        exact absurd (show (1 : Nat) ≤ 0 from hj) (by omega)
      · exact fun h => absurd h (Nat.succ_ne_zero cnt)
      · intro _
        exact Or.inr hpop
    · have hpopF : isPopular s (s.getD cnt ' ') = false := by
        simpa using hpop
      have hprevDiag : 1 ≤ cnt → diagChain s (cnt - 1) ≤ (selfLoopState s n cnt).1 (cnt - 1) := by
        intro hc
        rcases h5 hc with hle | hpopP
        · exact hle
        · rw [diagChain_popular s (cnt - 1) hpopP]
          exact Nat.zero_le _
      have hcnt_mem : cnt ∈ b2j s (s.getD cnt ' ') :=
        self_mem_b2j s cnt (by omega) hpopF
      rw [flmRow_self_eq s n cnt hn]
      have hrow := selfRow_fold s n cnt (selfLoopState s n cnt).1
        h3 h4 hprevDiag (b2j s (s.getD cnt ' '))
        ((fun _ => 0), (selfLoopState s n cnt).2)
        (fun j hj => by
          obtain ⟨hc1, hc2, hc3⟩ := mem_b2j s (s.getD cnt ' ') j hj
          exact ⟨hc1, hc3, by omega⟩)
        (b2j_sorted s _) h1 h2 (Or.inl hcnt_mem)
        (fun j hj => absurd (show (1 : Nat) ≤ 0 from hj) (by omega))
        (Or.inl hcnt_mem)
      obtain ⟨c1, c2, c3, c4, c5⟩ := hrow
      refine ⟨c1, ?_, c4, ?_, ?_⟩
      · intro r hr
        rcases Nat.lt_or_ge r cnt with hlt | hge
        · exact c2 r hlt
        · have he : r = cnt := by omega
          rcases c3 with hle | hpopT
          · rw [he]
            exact hle
          · rw [hpopT] at hpopF
            exact Bool.noConfusion hpopF
      · exact fun h => absurd h (Nat.succ_ne_zero cnt)
      · intro _
        exact c5

theorem flmLoop_self_diag (s : List Char) :
    (flmLoop s s 0 s.length 0 s.length).besti =
      (flmLoop s s 0 s.length 0 s.length).bestj := by
  rw [flmLoop_eq_selfLoopState s s.length]
  exact (selfLoop_inv s s.length rfl s.length (le_refl _)).1

theorem extendBack_succ_eq (a b : List Char) (alo blo fuel besti bestj size : Nat) :
    extendBack a b alo blo (fuel + 1) besti bestj size =
      if alo < besti ∧ blo < bestj ∧ a.getD (besti - 1) ' ' = b.getD (bestj - 1) ' ' then
        extendBack a b alo blo fuel (besti - 1) (bestj - 1) (size + 1)
      else FlmBest.mk besti bestj size := rfl

theorem extendFwd_succ_eq (a b : List Char) (ahi bhi fuel besti bestj size : Nat) :
    extendFwd a b ahi bhi (fuel + 1) besti bestj size =
      if besti + size < ahi ∧ bestj + size < bhi ∧
          a.getD (besti + size) ' ' = b.getD (bestj + size) ' ' then
        extendFwd a b ahi bhi fuel besti bestj (size + 1)
      else size := rfl

theorem extendBack_self (s : List Char) :
    ∀ (fuel i size : Nat), i ≤ fuel →
      extendBack s s 0 0 fuel i i size = FlmBest.mk 0 0 (size + i) := by
  intro fuel
  induction fuel with
  | zero =>
    intro i size hi
    have h0 : i = 0 := by omega
    subst h0
    rfl
  | succ f ih =>
    intro i size hi
    rw [extendBack_succ_eq]
    by_cases hc : 0 < i ∧ 0 < i ∧ s.getD (i - 1) ' ' = s.getD (i - 1) ' '
    · rw [if_pos hc]
      rw [ih (i - 1) (size + 1) (by omega)]
      have he : size + 1 + (i - 1) = size + i := by omega
      rw [he]
    · rw [if_neg hc]
      have h0 : i = 0 := by
        by_contra hcon
        exact hc ⟨by omega, by omega, rfl⟩
      subst h0
      rfl

theorem extendFwd_self (s : List Char) (n : Nat) :
    ∀ (fuel size : Nat), size ≤ n → n ≤ size + fuel →
      extendFwd s s n n fuel 0 0 size = n := by
  intro fuel
  induction fuel with
  | zero =>
    intro size h1 h2
    have h3 : size = n := by omega
    exact h3
  | succ f ih =>
    intro size h1 h2
    rw [extendFwd_succ_eq]
    by_cases hc : 0 + size < n ∧ 0 + size < n ∧
        s.getD (0 + size) ' ' = s.getD (0 + size) ' '
    · rw [if_pos hc]
      exact ih (size + 1) (by omega) (by omega)
    · rw [if_neg hc]
      have hge : ¬(0 + size < n) := fun hlt => hc ⟨hlt, hlt, rfl⟩
      omega

theorem find_longest_match_self (s : List Char) :
    find_longest_match s s 0 s.length 0 s.length = FlmBest.mk 0 0 s.length := by
  have hd := flmLoop_self_diag s
  have hb := flmLoop_bounds s s 0 s.length 0 s.length (Nat.zero_le _) (Nat.zero_le _)
  simp only [BestIn] at hb
  obtain ⟨b1, b2, b3, b4⟩ := hb
  simp only [find_longest_match]
  rw [← hd]
  rw [extendBack_self s (flmLoop s s 0 s.length 0 s.length).besti
    (flmLoop s s 0 s.length 0 s.length).besti
    (flmLoop s s 0 s.length 0 s.length).bestsize (le_refl _)]
  dsimp only
  rw [extendFwd_self s s.length s.length
    ((flmLoop s s 0 s.length 0 s.length).bestsize +
      (flmLoop s s 0 s.length 0 s.length).besti) (by omega) (by omega)]

theorem get_matching_blocks_self (s : List Char) (h : s ≠ []) :
    get_matching_blocks s s = [(0, 0, s.length), (s.length, s.length, 0)] := by
  have hn : 0 < s.length := List.length_pos.2 h
  rw [get_matching_blocks]
  simp only [matchingBlocksAux]
  rw [find_longest_match_self s]
  dsimp only
  rw [if_neg (by omega), if_neg (by omega), if_neg (by omega)]
  simp only [List.nil_append, List.append_nil]
  have hcol : collapseBlocks (0, 0, 0) [(0, 0, s.length)] = [(0, 0, s.length)] := by
    simp only [collapseBlocks]
    split
    · simp [h]
    · next hc => exact absurd ⟨trivial, trivial⟩ hc
  rw [hcol]
  rfl

theorem smMatched_self (s : List Char) (h : s ≠ []) : smMatched s s = s.length := by
  rw [smMatched, get_matching_blocks_self s h]
  simp

theorem ratio_q_self (s : List Char) (h : s ≠ []) : ratio_q s s = 1 := by
  have hn : 0 < s.length := List.length_pos.2 h
  rw [ratio_q, if_pos (by omega), smMatched_self s h, Rat.mkRat_eq_div]
  push_cast
  have h2 : ((s.length : ℚ) + (s.length : ℚ)) ≠ 0 := by
    have h3 : (0 : ℚ) < (s.length : ℚ) := by exact_mod_cast hn
    linarith
  rw [two_mul]
  exact div_self h2

theorem title_similarity_self_eq_one (a : String) (h : a ≠ "") :
    title_similarity a a = 1 := by
  rw [title_similarity]
  have hd : a.data ≠ [] := by
    intro hdat
    apply h
    apply String.ext
    rw [hdat]
  rw [if_neg (by simp [h])]
  refine ratio_q_self _ ?_
  intro hm
  exact hd (List.map_eq_nil_iff.1 hm)

theorem title_similarity_empty_left_zero (x : String) : title_similarity "" x = 0 := rfl

theorem title_similarity_mem_unit (a b : String) :
    0 ≤ title_similarity a b ∧ title_similarity a b ≤ 1 := by
  rw [title_similarity]
  split
  · norm_num
  · exact ratio_q_bounds _ _

/-- `title_similarity` is not symmetric, contrary to the spec: difflib's
`ratio()` depends on the argument order (the `b2j` chains are built from the
second argument only), e.g. `ratio("tide", "diet") = 1/4` but
`ratio("diet", "tide") = 1/2`. -/
theorem similarity_not_symmetric :
    title_similarity "tide" "diet" ≠ title_similarity "diet" "tide" := by decide

/-- **C9** (corrected): `title_similarity` always lies in `[0, 1]`, equals
`1` on any non-empty string compared with itself, and equals `0` whenever
the first argument is empty.  The symmetry part of the claim is false — see
`similarity_not_symmetric`. -/
theorem similarity_bounded_refl :
    (∀ a b : String, 0 ≤ title_similarity a b ∧ title_similarity a b ≤ 1) ∧
    (∀ a : String, a ≠ "" → title_similarity a a = 1) ∧
    (∀ x : String, title_similarity "" x = 0) :=
  ⟨fun a b => title_similarity_mem_unit a b,
   fun a h => title_similarity_self_eq_one a h,
   fun x => title_similarity_empty_left_zero x⟩

/-- Witness for `similarity_bounded_refl` at concrete inputs. -/
theorem similarity_bounded_refl_witness :
    (0 ≤ title_similarity "alpha" "beta" ∧ title_similarity "alpha" "beta" ≤ 1) ∧
    title_similarity "abc" "abc" = 1 ∧ title_similarity "" "q" = 0 :=
  ⟨similarity_bounded_refl.1 "alpha" "beta",
   similarity_bounded_refl.2.1 "abc" (by decide),
   similarity_bounded_refl.2.2 "q"⟩

/-- Witness for `title_fallback_review`: a concrete document whose scan
accepts nothing and whose title query returns `msgW2`. -/
theorem title_fallback_review_witness :
    (processDoc rdW2 rtW2 docW2 [] [] [] []).row.status = "no_match" ∧
    (processDoc rdW2 rtW2 docW2 [] [] [] []).accepted = none ∧
    (processDoc rdW2 rtW2 docW2 [] [] [] []).bib = [] ∧
    (processDoc rdW2 rtW2 docW2 [] [] [] []).ris = [] ∧
    (processDoc rdW2 rtW2 docW2 [] [] [] []).review = [] ++
      [⟨docW2.filename, replaceNewlines (tcOf docW2), titleOfMsg msgW2, msgW2.DOI,
        some (title_similarity (tcOf docW2) (titleOfMsg msgW2)),
        "title_search_no_accept"⟩] ∧
    (processDoc rdW2 rtW2 docW2 [] [] [] []).report =
      [] ++ [(processDoc rdW2 rtW2 docW2 [] [] [] []).row] :=
  (title_fallback_review rdW2 rtW2 docW2 [] [] [] []).1 rfl msgW2 (by decide) rfl rfl

/-- Witness for `entry_failure_isolated`: a concrete document with an
accepted record whose entry construction fails on the empty `title` list. -/
theorem entry_failure_isolated_witness :
    (processDoc rdW4 rtW4 docW4 [] [] [] []).row.status = "error" ∧
    (processDoc rdW4 rtW4 docW4 [] [] [] []).bib = [] ∧
    (processDoc rdW4 rtW4 docW4 [] [] [] []).ris = [] ∧
    (processDoc rdW4 rtW4 docW4 [] [] [] []).report =
      [] ++ [(processDoc rdW4 rtW4 docW4 [] [] [] []).row] ∧
    (processDoc rdW4 rtW4 docW4 [] [] [] []).accepted.isSome = true ∧
    (processDoc rdW4 rtW4 docW4 [] [] [] []).row.warning ≠ "" := by
  have h := entry_failure_isolated rdW4 rtW4 docW4 [] [] [] []
  have hstat : (processDoc rdW4 rtW4 docW4 [] [] [] []).row.status = "error" :=
    h.1 msgW4 "list index out of range" rfl rfl
  obtain ⟨hw, hb, hr, hrep, hacc⟩ := h.2 hstat
  exact ⟨hstat, hb, hr, hrep, hacc, hw⟩

end PaperDOI

